import Mathlib

/-!
Verification development for the per-swarm peer-to-peer instance runtime
(package `ptp`).  The definitions below are shallow embeddings of the Go
sources: the Swarm table (`list.go`), the instance runtime (`p2p.go`:
`removeStoppedPeers`, `discoverIP`, `Close`, `New`/`validateMac`, `SendTo`),
`utils.go` (`GenerateMAC`, `ParseIntroString`) and `endpoint.go`
(`Endpoint.Measure`).  Go `string` renderings of `net.IP` and
`net.HardwareAddr` are modelled as `Option String` / octet lists; machine
time is an abstract `Nat` of milliseconds.
-/

/-- Peer connection states, as enumerated by `StringifyState` in utils.go. -/
inductive PeerState where
  | init
  | requestedIP
  | requestingProxy
  | waitingForProxy
  | waitingToConnect
  | connecting
  | connected
  | disconnect
  | stop
  | cooldown
deriving DecidableEq

/-- An IPv4 address as four octets (the overlay addresses used by the code). -/
structure IPv4 where
  o1 : Nat
  o2 : Nat
  o3 : Nat
  o4 : Nat
deriving DecidableEq

/-- A UDP endpoint address: IPv4 literal plus port (Go `net.UDPAddr`,
restricted to the IPv4 literals this code produces and consumes). -/
structure UDPAddr where
  ip : IPv4
  port : Nat
deriving DecidableEq

/-- Modelled from the spec: the `NetworkPeer` struct is defined in a
repository file that is not under src; the fields here are the ones the
sources use (spec §3 "Peer"): overlay IP (`PeerLocalIP`), hardware address
(`PeerHW`), the current endpoint and the state.  The two string fields hold
the Go `String()` rendering of the address (`none` stands for a nil
pointer/slice). -/
structure NetworkPeer where
  peerLocalIP : Option String
  peerHW : Option String
  endpoint : Option UDPAddr
  state : PeerState
deriving DecidableEq

/-- Go `net.IP.String()` applied to a possibly-nil IP: nil renders as
`"<nil>"`. -/
def goIPString (ip : Option String) : String :=
  match ip with
  | none => "<nil>"
  | some s => s

/-- Go `net.HardwareAddr.String()` applied to a possibly-nil address: nil
renders as the empty string. -/
def goHWString (hw : Option String) : String :=
  match hw with
  | none => ""
  | some s => s

/-- The Swarm table (list.go): primary map of peers keyed by id plus the two
secondary indexes IP→id and MAC→id.  Go maps are modelled as functions into
`Option`. -/
structure Swarm where
  peers : String → Option NetworkPeer
  tableIPID : String → Option String
  tableMacID : String → Option String

/-- `Swarm.Init`: all three maps empty. -/
def initSwarm : Swarm :=
  { peers := fun _ => none
    tableIPID := fun _ => none
    tableMacID := fun _ => none }

/-- The two mutations accepted by the serializing mutator `Swarm.operate`
(`OperateUpdate` with its peer argument, and `OperateDelete`). -/
inductive SwarmOp where
  | update : String → NetworkPeer → SwarmOp
  | delete : String → SwarmOp
deriving DecidableEq

/-- The IP string `operate` computes for an update: `""` for a nil IP,
otherwise its rendering (`ip := ""; if peer.PeerLocalIP != nil { ip = … }`). -/
def ipStrOf (pr : NetworkPeer) : String :=
  match pr.peerLocalIP with
  | some s => s
  | none => ""

/-- The MAC string `operate` computes for an update. -/
def macStrOf (pr : NetworkPeer) : String :=
  match pr.peerHW with
  | some s => s
  | none => ""

/-- `Swarm.updateTables`: store `ip→id` and `mac→id`, skipping empty
strings. -/
def Swarm.updateTables (l : Swarm) (id ip mac : String) : Swarm :=
  let l1 :=
    if ip ≠ "" then
      { l with tableIPID := fun k => if k = ip then some id else l.tableIPID k }
    else l
  if mac ≠ "" then
    { l1 with tableMacID := fun k => if k = mac then some id else l1.tableMacID k }
  else l1

/-- `Swarm.deleteTables`: drop the `ip` and `mac` keys from the indexes when
present, skipping empty strings. -/
def Swarm.deleteTables (l : Swarm) (ip mac : String) : Swarm :=
  let l1 :=
    if ip ≠ "" then
      if (l.tableIPID ip).isSome then
        { l with tableIPID := fun k => if k = ip then none else l.tableIPID k }
      else l
    else l
  if mac ≠ "" then
    if (l1.tableMacID mac).isSome then
      { l1 with tableMacID := fun k => if k = mac then none else l1.tableMacID k }
    else l1
  else l1

/-- `Swarm.operate`: the serializing mutator.  On update the peer is stored
and the indexes updated with the non-nil string renderings; on delete a
missing id is reported as an error and otherwise the entry and its index
keys (rendered with Go's nil semantics) are removed.  The nil-map
initialization checks of the source are always satisfied here since
`Swarm` carries total maps. -/
def Swarm.operate (l : Swarm) (op : SwarmOp) : Swarm × Option String :=
  match op with
  | .update id peer =>
      let l1 := { l with peers := fun k => if k = id then some peer else l.peers k }
      (l1.updateTables id (ipStrOf peer) (macStrOf peer), none)
  | .delete id =>
      match l.peers id with
      | none => (l, some "can't delete peer: entry doesn't exists")
      | some peer =>
          let l1 := l.deleteTables (goIPString peer.peerLocalIP) (goHWString peer.peerHW)
          ({ l1 with peers := fun k => if k = id then none else l1.peers k }, none)

/-- Public `Swarm.Delete`: calls `operate` and discards its result. -/
def Swarm.Delete (l : Swarm) (id : String) : Swarm :=
  (l.operate (.delete id)).1

/-- Public `Swarm.Update`: calls `operate` and discards its result. -/
def Swarm.Update (l : Swarm) (id : String) (peer : NetworkPeer) : Swarm :=
  (l.operate (.update id peer)).1

/-- `Swarm.GetEndpoint`: MAC index lookup, then the peer, then its endpoint;
every missing step yields the same error. -/
def Swarm.GetEndpoint (l : Swarm) (mac : String) : Except String UDPAddr :=
  match l.tableMacID mac with
  | some id =>
      match l.peers id with
      | some peer =>
          match peer.endpoint with
          | some ep => .ok ep
          | none => .error "Specified hardware address was not found in table"
      | none => .error "Specified hardware address was not found in table"
  | none => .error "Specified hardware address was not found in table"

/-- `Swarm.GetID`: IP index lookup. -/
def Swarm.GetID (l : Swarm) (ip : String) : Except String String :=
  match l.tableIPID ip with
  | some id => .ok id
  | none => .error "Specified IP was not found in table"

/-- A sequence of table mutations applied through `operate` (each public
`Update`/`Delete` call is one element). -/
def applyOps (s : Swarm) (ops : List SwarmOp) : Swarm :=
  ops.foldl (fun t op => (t.operate op).1) s

/-! ### Well-behaved mutation sequences (for the index-consistency claim)

The index-consistency invariant of the spec fails for arbitrary update
sequences (an update never clears the index keys of the values it
replaces); the amended statement restricts to sequences in which a peer's
rendered IP/MAC never changes and is never shared between distinct ids. -/

/-- An update op carries realistic address renderings: a present overlay IP
never renders as `""` or `"<nil>"` and a present MAC never renders as
`""`. -/
def SwarmOp.wf : SwarmOp → Prop
  | .update _ pr =>
      pr.peerLocalIP ≠ some "" ∧ pr.peerLocalIP ≠ some "<nil>" ∧ pr.peerHW ≠ some ""
  | .delete _ => True

instance (op : SwarmOp) : Decidable op.wf := by
  cases op <;> simp only [SwarmOp.wf] <;> infer_instance

/-- Two updates are compatible when updates of the same id carry the same
IP/MAC renderings and updates of distinct ids never share a present IP or a
present MAC. -/
def SwarmOp.compat : SwarmOp → SwarmOp → Prop
  | .update i p, .update j q =>
      (i = j → p.peerLocalIP = q.peerLocalIP ∧ p.peerHW = q.peerHW) ∧
      (i ≠ j →
        (p.peerLocalIP = q.peerLocalIP → p.peerLocalIP = none) ∧
        (p.peerHW = q.peerHW → p.peerHW = none))
  | _, _ => True

instance (x y : SwarmOp) : Decidable (x.compat y) := by
  cases x <;> cases y <;> simp only [SwarmOp.compat] <;> infer_instance

/-- A well-behaved mutation sequence: every op well formed, every pair of
ops compatible. -/
def GoodOps (ops : List SwarmOp) : Prop :=
  (∀ op ∈ ops, op.wf) ∧ ops.Pairwise SwarmOp.compat

instance (ops : List SwarmOp) : Decidable (GoodOps ops) := by
  unfold GoodOps; infer_instance

/-- Compatibility of a live table entry with a pending op: a later update of
the same id keeps the entry's IP/MAC renderings, a later update of another
id does not take them over. -/
def peerCompat (id : String) (pr : NetworkPeer) : SwarmOp → Prop
  | .update j q =>
      (j = id → q.peerLocalIP = pr.peerLocalIP ∧ q.peerHW = pr.peerHW) ∧
      (j ≠ id →
        (q.peerLocalIP = pr.peerLocalIP → q.peerLocalIP = none) ∧
        (q.peerHW = pr.peerHW → q.peerHW = none))
  | .delete _ => True

/-- Every live entry of `s` is compatible with every pending op. -/
def Compat (s : Swarm) (ops : List SwarmOp) : Prop :=
  ∀ id pr, s.peers id = some pr → ∀ op ∈ ops, peerCompat id pr op

/-- The inductive invariant: both indexes are exact inverses of the primary
map on rendered addresses, and live entries are well formed. -/
def SwarmInv (s : Swarm) : Prop :=
  (∀ k v, s.tableIPID k = some v → ∃ pr, s.peers v = some pr ∧ pr.peerLocalIP = some k) ∧
  (∀ k v, s.tableMacID k = some v → ∃ pr, s.peers v = some pr ∧ pr.peerHW = some k) ∧
  (∀ id pr k, s.peers id = some pr → pr.peerLocalIP = some k → s.tableIPID k = some id) ∧
  (∀ id pr k, s.peers id = some pr → pr.peerHW = some k → s.tableMacID k = some id) ∧
  (∀ id pr, s.peers id = some pr →
    pr.peerLocalIP ≠ some "" ∧ pr.peerLocalIP ≠ some "<nil>" ∧ pr.peerHW ≠ some "")

/-- The consistency property of the claim: every live `(id, peer)` is backed
by both indexes at its rendered addresses, and no index key maps to an
absent id (in particular, to a just-deleted one). -/
def IndexConsistent (s : Swarm) : Prop :=
  (∀ id pr, s.peers id = some pr →
    (∀ k, pr.peerLocalIP = some k → s.tableIPID k = some id) ∧
    (∀ k, pr.peerHW = some k → s.tableMacID k = some id)) ∧
  (∀ id, s.peers id = none → ∀ k, s.tableIPID k ≠ some id ∧ s.tableMacID k ≠ some id)

/-! ### `removeStoppedPeers` (p2p.go)

`Swarm.Get` returns a snapshot copy of the peers map; Go's map iteration
order is unspecified, so the snapshot order is a parameter here. -/

/-- A list enumeration of the peers map: membership agrees with the map and
ids are not repeated. -/
def ValidSnapshot (s : Swarm) (snap : List (String × NetworkPeer)) : Prop :=
  (∀ id pr, (id, pr) ∈ snap ↔ s.peers id = some pr) ∧ (snap.map Prod.fst).Nodup

/-- `PeerToPeer.removeStoppedPeers`: walk the snapshot; on the first peer in
state `STOPPED` delete it from the table and leave the loop. -/
def removeStoppedPeers (s : Swarm) (snap : List (String × NetworkPeer)) : Swarm :=
  match snap.find? (fun e => e.2.state = PeerState.stop) with
  | some e => Swarm.Delete s e.1
  | none => s

/-! ### Auto-IP discovery (p2p.go `discoverIP`)

Only the free-IP probing loop matters for the claim.  The 1.5 s windows are
abstracted into an oracle `claimed`: `claimed c = true` iff some peer claims
host address `c` of the received /24 subnet during its window.  Modelled
from the spec: the `COMM/IP_INFO` reply handler (not under src) installs the
probed candidate on the interface when no peer claims it within the window,
which is what ends the loop. -/

/-- The probing loop of `discoverIP`:  `i` starts at 255 and the loop runs
while the interface IP is unset and `i > 0`; each window decrements `i`
first and then probes host address `i`.  Returns the probed candidates in
order together with the installed address (`none` when the loop exhausts
its candidates). -/
def discoverLoop (claimed : Nat → Bool) : Nat → List Nat × Option Nat
  | 0 => ([], none)
  | i + 1 =>
      if claimed i then
        let r := discoverLoop claimed i
        (i :: r.1, r.2)
      else
        ([i], some i)

/-- `discoverIP`'s candidate probing, started at `i = 255`. -/
def discoverIP (claimed : Nat → Bool) : List Nat × Option Nat :=
  discoverLoop claimed 255

/-- The candidate order stated by the spec: `a.b.c.255, a.b.c.254, …,
a.b.c.1`. -/
def specCandidates : List Nat := (List.range' 1 255).reverse

/-- The candidate order the code actually uses: `a.b.c.254, …, a.b.c.1,
a.b.c.0`. -/
def codeCandidates : List Nat := (List.range 255).reverse

/-- Probing outcome over a fixed candidate list: the claimed ones get
probed and passed over, the first unclaimed one is probed and installed. -/
def probeOutcome (claimed : Nat → Bool) (cands : List Nat) : List Nat × Option Nat :=
  (cands.takeWhile claimed ++ (cands.dropWhile claimed).take 1,
   (cands.dropWhile claimed).head?)

/-! ### `PeerToPeer.Close` (p2p.go) -/

/-- The observable shutdown steps of `Close` (with `stopPeers` split into
its two phases: instructing every peer to `DISCONNECT`, then waiting up to
5 s for the swarm to drain). -/
inductive CloseEvent where
  | deactivateInterface
  | setPeersDisconnect
  | drainWait
  | markShutdown
  | closeDHT
  | closeSocket
  | closeDevice
  | markReady
deriving DecidableEq

/-- The runtime state `Close` acts on (the fields of `PeerToPeer` that the
shutdown path touches; the process-wide `ActiveInterfaces` registry is
carried in the state). -/
structure InstanceState where
  shutdown : Bool
  readyToStop : Bool
  activeInterfaces : List (Option IPv4)
  interfaceIP : Option IPv4
  swarm : Swarm
  dhtClosed : Bool
  socketClosed : Bool
  deviceClosed : Bool

/-- Remove the first occurrence of `x`, or report that none was found. -/
def removeFirstEq (x : Option IPv4) : List (Option IPv4) → Option (List (Option IPv4))
  | [] => none
  | y :: ys => if y = x then some ys else (removeFirstEq x ys).map (y :: ·)

/-- `deactivateInterface`: drop the instance's interface IP from the
active-interfaces registry (first match; an error when it is not listed). -/
def deactivateInterface (st : InstanceState) : InstanceState × Option String :=
  match removeFirstEq st.interfaceIP st.activeInterfaces with
  | some l => ({ st with activeInterfaces := l }, none)
  | none => (st, some "Interface wasn't listed as active")

/-- The mutation phase of `stopPeers`: every snapshot peer is set to
`DISCONNECT` and written back through `Swarm.Update`.  The subsequent drain
loop only sleeps and polls `Swarm.Length`; the concurrent removals it waits
for are driven by the peer tasks and are not part of this state. -/
def stopPeersStep (st : InstanceState) (snap : List (String × NetworkPeer)) : InstanceState :=
  { st with
    swarm := snap.foldl
      (fun sw e => Swarm.Update sw e.1 { e.2 with state := PeerState.disconnect }) st.swarm }

/-- `PeerToPeer.Close`: the shutdown steps in source order, with the
emitted step sequence. -/
def closeInstance (st : InstanceState) (snap : List (String × NetworkPeer)) :
    InstanceState × List CloseEvent :=
  let s1 := (deactivateInterface st).1
  let s2 := stopPeersStep s1 snap
  let s3 := { s2 with shutdown := true }
  let s4 := { s3 with dhtClosed := true }
  let s5 := { s4 with socketClosed := true }
  let s6 := { s5 with deviceClosed := true }
  let s7 := { s6 with readyToStop := true }
  (s7, [CloseEvent.deactivateInterface, CloseEvent.setPeersDisconnect, CloseEvent.drainWait,
        CloseEvent.markShutdown, CloseEvent.closeDHT, CloseEvent.closeSocket,
        CloseEvent.closeDevice, CloseEvent.markReady])

/-- The step order asserted by the claim: shutdown is marked first, the
close-down of rendezvous/socket/device comes after the drain, ready-to-stop
last. -/
def specCloseOrder : List CloseEvent :=
  [CloseEvent.markShutdown, CloseEvent.deactivateInterface, CloseEvent.setPeersDisconnect,
   CloseEvent.drainWait, CloseEvent.closeDHT, CloseEvent.closeSocket,
   CloseEvent.closeDevice, CloseEvent.markReady]

/-! ### Character-level string machinery

Go's `strings.Split`, `fmt.Sprintf("%02x")`, `strconv` digits and the
stdlib address formatters/parsers used by the sources, modelled on
`List Char`. -/

/-- Decimal digits of `n`, least significant first (`strconv.Itoa`'s digit
loop); structural on a fuel bound that the wrapper instantiates with
`n + 1`, which always suffices. -/
def decRevAux : Nat → Nat → List Char
  | 0, _ => []
  | fuel + 1, n =>
      if n < 10 then [Nat.digitChar n]
      else Nat.digitChar (n % 10) :: decRevAux fuel (n / 10)

/-- Decimal digits of `n`, least significant first. -/
def decRev (n : Nat) : List Char := decRevAux (n + 1) n

/-- Decimal rendering of `n`, most significant digit first. -/
def decStr (n : Nat) : List Char := (decRev n).reverse

/-- Numeric value of a decimal digit character. -/
def digitVal (c : Char) : Nat := c.toNat - 48

/-- Parse a non-empty all-digit run as a decimal number (Go `strconv.Atoi`
restricted to the unsigned numerals this code emits). -/
def parseDec (l : List Char) : Option Nat :=
  if l ≠ [] ∧ l.all Char.isDigit then
    some (l.foldl (fun a c => a * 10 + digitVal c) 0)
  else none

/-- Split on every occurrence of `sep` (Go `strings.Split` with a
one-character separator). -/
def splitOnChar (sep : Char) : List Char → List (List Char)
  | [] => [[]]
  | c :: rest =>
      if c = sep then [] :: splitOnChar sep rest
      else
        match splitOnChar sep rest with
        | [] => [[c]]
        | h :: t => (c :: h) :: t

/-- Join with a one-character separator (Go `strings.Join`). -/
def intercalateChar (sep : Char) : List (List Char) → List Char
  | [] => []
  | [x] => x
  | x :: y :: ys => x ++ sep :: intercalateChar sep (y :: ys)

/-- The two lowercase hex digits of a byte (Go `%02x`). -/
def hexPairChars (b : Nat) : List Char :=
  [Nat.digitChar (b / 16), Nat.digitChar (b % 16)]

/-- Value of a hex digit character (Go's `xtoi`). -/
def hexVal (c : Char) : Option Nat :=
  if '0' ≤ c ∧ c ≤ '9' then some (c.toNat - 48)
  else if 'a' ≤ c ∧ c ≤ 'f' then some (c.toNat - 87)
  else if 'A' ≤ c ∧ c ≤ 'F' then some (c.toNat - 55)
  else none

/-- Parse exactly two hex digits as a byte. -/
def parseHexPair (l : List Char) : Option Nat :=
  match l with
  | [c1, c2] =>
      match hexVal c1, hexVal c2 with
      | some a, some b => some (a * 16 + b)
      | _, _ => none
  | _ => none

/-- `net.HardwareAddr.String()`: lowercase hex octets joined by colons. -/
def macToString (hw : List Nat) : String :=
  ⟨intercalateChar ':' (hw.map hexPairChars)⟩

/-- Modelled from the spec: Go `net.ParseMAC` (stdlib, outside this repo),
restricted to the colon-separated 6-octet form that this code produces and
validates. -/
def parseMAC (s : String) : Option (List Nat) :=
  let parts := splitOnChar ':' s.data
  if parts.length = 6 then parts.mapM parseHexPair else none

/-- `net.IP.String()` for an IPv4 value: dotted decimal. -/
def ipToString (ip : IPv4) : String :=
  ⟨intercalateChar '.' [decStr ip.o1, decStr ip.o2, decStr ip.o3, decStr ip.o4]⟩

/-- A dotted-quad field: decimal, at most 255. -/
def parseDecOctet (l : List Char) : Option Nat :=
  match parseDec l with
  | some n => if n < 256 then some n else none
  | none => none

/-- Modelled from the spec: Go `net.ParseIP` (stdlib), restricted to
IPv4 dotted-quad literals, which is all this code renders and exchanges. -/
def parseIP4 (s : String) : Option IPv4 :=
  match splitOnChar '.' s.data with
  | [a, b, c, d] =>
      match parseDecOctet a, parseDecOctet b, parseDecOctet c, parseDecOctet d with
      | some na, some nb, some nc, some nd => some ⟨na, nb, nc, nd⟩
      | _, _, _, _ => none
  | _ => none

/-- `net.UDPAddr.String()`: `host:port` with a dotted-quad host. -/
def epToString (e : UDPAddr) : String :=
  ipToString e.ip ++ ":" ++ (⟨decStr e.port⟩ : String)

/-- Modelled from the spec: Go `net.ResolveUDPAddr("udp4", …)` (stdlib),
restricted to literal `ipv4:port` endpoint strings — the form the
introduction messages of this code carry. -/
def resolveUDP4 (s : String) : Option UDPAddr :=
  match splitOnChar ':' s.data with
  | [h, p] =>
      match parseIP4 ⟨h⟩, parseDec p with
      | some ip, some n => if n < 65536 then some ⟨ip, n⟩ else none
      | _, _ => none
  | _ => none

/-! ### Introduction records (utils.go `ParseIntroString`, p2p.go
`PrepareIntroductionMessage`) -/

/-- `PeerHandshake` (p2p.go): handshake information received from a peer.
The hardware address is its octet list; `ip = none` stands for a nil
`net.IP`. -/
structure PeerHandshake where
  id : String
  hardwareAddr : List Nat
  ip : Option IPv4
  endpoint : UDPAddr
  autoIP : Bool
deriving DecidableEq

/-- `ParseIntroString` (utils.go): split on commas into exactly 4 fields,
then parse MAC, IP (or the literal `auto`), and the UDP endpoint. -/
def ParseIntroString (intro : String) : Except String PeerHandshake :=
  let parts := (splitOnChar ',' intro.data).map (fun l => (⟨l⟩ : String))
  match parts with
  | [p0, p1, p2, p3] =>
      match parseMAC p1 with
      | none => .error "Failed to parse MAC address from introduction packet"
      | some hw =>
          if p2 = "auto" then
            match resolveUDP4 p3 with
            | none => .error ("Failed to parse handshake endpoint: " ++ p3)
            | some ep => .ok { id := p0, hardwareAddr := hw, ip := none, endpoint := ep, autoIP := true }
          else
            match parseIP4 p2 with
            | none => .error "Failed to parse IP address from introduction packet"
            | some ip =>
                match resolveUDP4 p3 with
                | none => .error ("Failed to parse handshake endpoint: " ++ p3)
                | some ep => .ok { id := p0, hardwareAddr := hw, ip := some ip, endpoint := ep, autoIP := false }
  | _ => .error ("Failed to parse introduction string: " ++ intro)

/-- The comma-separated introduction line built by
`PrepareIntroductionMessage`, over a handshake record: id, the instance's
hardware address rendering, its overlay IP rendering (the literal `auto`
when the interface is in auto mode, `"<nil>"` for a nil IP, Go semantics),
and the endpoint string. -/
def serializeHandshake (hs : PeerHandshake) : String :=
  let ipStr : String :=
    if hs.autoIP then "auto"
    else
      match hs.ip with
      | some ip => ipToString ip
      | none => "<nil>"
  hs.id ++ "," ++ macToString hs.hardwareAddr ++ "," ++ ipStr ++ "," ++ epToString hs.endpoint

/-- Modelled from the spec: the intro-message handler is in a repository
file not under src.  Per the spec, a parse failure rejects the message and
leaves the Swarm table unchanged; a successful parse is handed to the rest
of the handler, which is kept as a parameter here. -/
def handleIntroModel (onOk : Swarm → PeerHandshake → Swarm) (s : Swarm) (intro : String) : Swarm :=
  match ParseIntroString intro with
  | .error _ => s
  | .ok hs => onOk s hs

/-! ### MAC validation and generation (p2p.go `validateMac`,
utils.go `GenerateMAC`, the mac path of `New`) -/

/-- `GenerateMAC` (utils.go): six random bytes (here: the entropy list,
whose entries are bytes); the first byte is OR'd with 2 but then discarded
by the `"06:"`-prefixed format string; the five remaining bytes are
rendered as lowercase hex and the result re-parsed into a hardware
address. -/
def GenerateMAC (entropy : List Nat) : String × Option (List Nat) :=
  let b := fun i => entropy.getD i 0
  let _b0 := b 0 ||| 2
  let mac : String :=
    ⟨'0' :: '6' :: ':' :: intercalateChar ':' ([b 1, b 2, b 3, b 4, b 5].map hexPairChars)⟩
  match parseMAC mac with
  | none => ("", none)
  | some hw => (mac, some hw)

/-- `PeerToPeer.validateMac`: a non-empty string must parse (otherwise nil
is returned and only logged), an empty one is replaced by a generated
address. -/
def validateMac (mac : String) (entropy : List Nat) : Option (List Nat) :=
  if mac ≠ "" then
    match parseMAC mac with
    | none => none
    | some hw => some hw
  else (GenerateMAC entropy).2

/-- The part of the result of `New` the mac option influences. -/
structure NewOutcome where
  tapHW : Option (List Nat)
deriving DecidableEq

/-- The mac-relevant control flow of `New` (p2p.go): `newTAP` is called
with constant, always-valid arguments; the result of `validateMac` is
installed with `SetHardwareAddress` unconditionally; the only later abort
point is the DHT initialization (external, parameter `dhtOk`).  `New`
returns an instance regardless of what `validateMac` produced. -/
def NewModel (mac : String) (entropy : List Nat) (dhtOk : Bool) : Option NewOutcome :=
  let hw := validateMac mac entropy
  if dhtOk then some { tapHW := hw } else none

/-! ### Endpoint latency probing (endpoint.go `Measure`) -/

/-- `Endpoint` (endpoint.go).  Times are milliseconds on an abstract
clock. -/
structure EndpointRec where
  addr : Option UDPAddr
  lastContact : Nat
  lastPing : Nat
  broken : Bool
  latency : Nat
  lastLatencyQuery : Nat
deriving DecidableEq

/-- Modelled from the spec: the constant's defining file is not under src;
its concrete value is immaterial to every theorem below. -/
def EndpointLatencyRequestInterval : Nat := 10000

/-- Modelled from the spec: the `LATENCY_REQUEST_HEADER` constant is not
under src; its value is immaterial here. -/
def latencyRequestHeader : List Nat := [5, 5]

/-- `Endpoint.addrToBytes`: 4 IP octets followed by the port, big endian
(the cast to `uint16` truncates mod 2^16). -/
def addrToBytes (a : UDPAddr) : List Nat :=
  [a.ip.o1, a.ip.o2, a.ip.o3, a.ip.o4, a.port % 65536 / 256, a.port % 65536 % 256]

/-- `Endpoint.Measure`: nothing is sent for a broken endpoint, a nil
address, a nil socket, or when the last latency query is less than
`EndpointLatencyRequestInterval` ago; otherwise `lastLatencyQuery` is
stamped and the latency request is emitted (unless message creation fails —
`createOk`, external code — in which case the stamp still happens but
nothing is sent). -/
def Endpoint.Measure (e : EndpointRec) (sockPresent : Bool) (createOk : Bool)
    (id : String) (now : Nat) : EndpointRec × Option (List Nat × UDPAddr) :=
  if e.broken then (e, none)
  else
    match e.addr with
    | none => (e, none)
    | some a =>
        if !sockPresent then (e, none)
        else if now - e.lastLatencyQuery < EndpointLatencyRequestInterval then (e, none)
        else
          let e1 := { e with lastLatencyQuery := now }
          let payload :=
            latencyRequestHeader ++ addrToBytes a ++ (id.data.map Char.toNat) ++ [now]
          if createOk then (e1, some (payload, a)) else (e1, none)

/-! ### `PeerToPeer.SendTo` (p2p.go) -/

/-- An in-memory P2P message; `SendTo` never inspects it. -/
structure P2PMessage where
  raw : List Nat
deriving DecidableEq

/-- `PeerToPeer.SendTo`: nil checks first; then the endpoint is resolved
through the Swarm table by the destination's rendered hardware address.  If
that fails the message is silently dropped with `(0, nil)`; otherwise the
socket send's result (`sendf`, the socket behaviour) is returned as is. -/
def SendTo (swarm : Option Swarm) (sendf : Option (P2PMessage → UDPAddr → Int × Option String))
    (dst : Option String) (msg : Option P2PMessage) : Int × Option String :=
  match swarm with
  | none => (-1, some "SendTo: nil peer list")
  | some sw =>
      match sendf with
      | none => (-1, some "SendTo: nil udp socket")
      | some send =>
          match msg with
          | none => (-1, some "SendTo: nil msg")
          | some m =>
              match dst with
              | none => (-1, some "SendTo: nil dst")
              | some d =>
                  match sw.GetEndpoint d with
                  | .ok ep => send m ep
                  | .error _ => (0, none)

/-! ## Theorems -/

/-! ### Swarm table characterization lemmas -/

theorem ipStrOf_spec {pr : NetworkPeer} (h : ipStrOf pr ≠ "") :
    pr.peerLocalIP = some (ipStrOf pr) := by
  cases hp : pr.peerLocalIP with
  | none => simp [ipStrOf, hp] at h
  | some s => simp [ipStrOf, hp]

theorem ipStrOf_eq_some {pr : NetworkPeer} {s : String} (h : pr.peerLocalIP = some s) :
    ipStrOf pr = s := by
  unfold ipStrOf; rw [h]

theorem macStrOf_spec {pr : NetworkPeer} (h : macStrOf pr ≠ "") :
    pr.peerHW = some (macStrOf pr) := by
  cases hp : pr.peerHW with
  | none => simp [macStrOf, hp] at h
  | some s => simp [macStrOf, hp]

theorem macStrOf_eq_some {pr : NetworkPeer} {s : String} (h : pr.peerHW = some s) :
    macStrOf pr = s := by
  unfold macStrOf; rw [h]

theorem updateTables_peers (l : Swarm) (id ip mac : String) :
    (Swarm.updateTables l id ip mac).peers = l.peers := by
  simp only [Swarm.updateTables]
  split_ifs <;> rfl

theorem updateTables_ip (l : Swarm) (id ip mac k : String) :
    (Swarm.updateTables l id ip mac).tableIPID k =
      if ip ≠ "" ∧ k = ip then some id else l.tableIPID k := by
  simp only [Swarm.updateTables]
  by_cases h1 : ip ≠ "" <;> by_cases h2 : k = ip <;> by_cases h3 : mac ≠ "" <;>
    simp [h1, h2, h3]

theorem updateTables_mac (l : Swarm) (id ip mac k : String) :
    (Swarm.updateTables l id ip mac).tableMacID k =
      if mac ≠ "" ∧ k = mac then some id else l.tableMacID k := by
  simp only [Swarm.updateTables]
  by_cases h1 : ip ≠ "" <;> by_cases h2 : k = mac <;> by_cases h3 : mac ≠ "" <;>
    simp [h1, h2, h3]

theorem deleteTables_peers (l : Swarm) (ip mac : String) :
    (Swarm.deleteTables l ip mac).peers = l.peers := by
  simp only [Swarm.deleteTables]
  split_ifs <;> rfl

theorem deleteTables_ip (l : Swarm) (ip mac k : String) :
    (Swarm.deleteTables l ip mac).tableIPID k =
      if ip ≠ "" ∧ k = ip then none else l.tableIPID k := by
  simp only [Swarm.deleteTables]
  by_cases h1 : ip ≠ "" <;> by_cases h2 : k = ip <;>
    rcases hip : l.tableIPID ip with _ | v <;>
      split_ifs <;> simp_all

theorem deleteTables_mac (l : Swarm) (ip mac k : String) :
    (Swarm.deleteTables l ip mac).tableMacID k =
      if mac ≠ "" ∧ k = mac then none else l.tableMacID k := by
  simp only [Swarm.deleteTables]
  by_cases h1 : ip ≠ "" <;> by_cases h2 : k = mac <;> by_cases h3 : mac ≠ "" <;>
    rcases hip : l.tableIPID ip with _ | v <;>
      split_ifs <;> simp_all

theorem operate_update_peers (l : Swarm) (id : String) (pr : NetworkPeer) (k : String) :
    ((l.operate (.update id pr)).1).peers k = if k = id then some pr else l.peers k := by
  have h := congrFun (updateTables_peers
    { l with peers := fun k => if k = id then some pr else l.peers k } id (ipStrOf pr) (macStrOf pr)) k
  simpa [Swarm.operate] using h

theorem operate_update_ip (l : Swarm) (id : String) (pr : NetworkPeer) (k : String) :
    ((l.operate (.update id pr)).1).tableIPID k =
      if ipStrOf pr ≠ "" ∧ k = ipStrOf pr then some id else l.tableIPID k := by
  have h := updateTables_ip
    { l with peers := fun k => if k = id then some pr else l.peers k } id (ipStrOf pr) (macStrOf pr) k
  simpa [Swarm.operate] using h

theorem operate_update_mac (l : Swarm) (id : String) (pr : NetworkPeer) (k : String) :
    ((l.operate (.update id pr)).1).tableMacID k =
      if macStrOf pr ≠ "" ∧ k = macStrOf pr then some id else l.tableMacID k := by
  have h := updateTables_mac
    { l with peers := fun k => if k = id then some pr else l.peers k } id (ipStrOf pr) (macStrOf pr) k
  simpa [Swarm.operate] using h

theorem operate_delete_absent (l : Swarm) (id : String) (h : l.peers id = none) :
    l.operate (.delete id) = (l, some "can't delete peer: entry doesn't exists") := by
  simp [Swarm.operate, h]

theorem operate_delete_peers (l : Swarm) (id : String) (pr : NetworkPeer)
    (h : l.peers id = some pr) (k : String) :
    ((l.operate (.delete id)).1).peers k = if k = id then none else l.peers k := by
  have hp := congrFun (deleteTables_peers l (goIPString pr.peerLocalIP) (goHWString pr.peerHW)) k
  simp [Swarm.operate, h, hp]

theorem operate_delete_ip (l : Swarm) (id : String) (pr : NetworkPeer)
    (h : l.peers id = some pr) (k : String) :
    ((l.operate (.delete id)).1).tableIPID k =
      if goIPString pr.peerLocalIP ≠ "" ∧ k = goIPString pr.peerLocalIP then none
      else l.tableIPID k := by
  have hp := deleteTables_ip l (goIPString pr.peerLocalIP) (goHWString pr.peerHW) k
  simp [Swarm.operate, h, hp]

theorem operate_delete_mac (l : Swarm) (id : String) (pr : NetworkPeer)
    (h : l.peers id = some pr) (k : String) :
    ((l.operate (.delete id)).1).tableMacID k =
      if goHWString pr.peerHW ≠ "" ∧ k = goHWString pr.peerHW then none
      else l.tableMacID k := by
  have hp := deleteTables_mac l (goIPString pr.peerLocalIP) (goHWString pr.peerHW) k
  simp [Swarm.operate, h, hp]

/-! ### Invariant preservation -/

theorem swarmInv_init : SwarmInv initSwarm := by
  refine ⟨?_, ?_, ?_, ?_, ?_⟩ <;> intros <;> simp_all [initSwarm]

theorem swarmInv_update (l : Swarm) (id : String) (pr : NetworkPeer)
    (hinv : SwarmInv l)
    (hwf : (SwarmOp.update id pr).wf)
    (hcomp : ∀ id' pr', l.peers id' = some pr' → peerCompat id' pr' (.update id pr)) :
    SwarmInv ((l.operate (.update id pr)).1) := by
  obtain ⟨hIPs, hMacs, hIPc, hMacc, hWF⟩ := hinv
  simp only [SwarmOp.wf] at hwf
  obtain ⟨hwfIP, hwfNil, hwfMac⟩ := hwf
  refine ⟨?_, ?_, ?_, ?_, ?_⟩
  · -- IP index sound
    intro k v hk
    rw [operate_update_ip] at hk
    by_cases hc : ipStrOf pr ≠ "" ∧ k = ipStrOf pr
    · rw [if_pos hc] at hk
      injection hk with hk
      subst hk
      refine ⟨pr, ?_, ?_⟩
      · rw [operate_update_peers, if_pos rfl]
      · rw [hc.2]; exact ipStrOf_spec hc.1
    · rw [if_neg hc] at hk
      obtain ⟨pr'', hpr'', hip''⟩ := hIPs k v hk
      refine ⟨pr'', ?_, hip''⟩
      rw [operate_update_peers]
      by_cases hv : v = id
      · exfalso
        subst hv
        have hcc := (hcomp v pr'' hpr'').1 rfl
        have hk2 : ipStrOf pr = k := ipStrOf_eq_some (hcc.1.trans hip'')
        have hkne : k ≠ "" := by
          intro hkk
          exact (hWF v pr'' hpr'').1 (hkk ▸ hip'')
        exact hc ⟨by rw [hk2]; exact hkne, hk2.symm⟩
      · rw [if_neg hv]; exact hpr''
  · -- MAC index sound
    intro k v hk
    rw [operate_update_mac] at hk
    by_cases hc : macStrOf pr ≠ "" ∧ k = macStrOf pr
    · rw [if_pos hc] at hk
      injection hk with hk
      subst hk
      refine ⟨pr, ?_, ?_⟩
      · rw [operate_update_peers, if_pos rfl]
      · rw [hc.2]; exact macStrOf_spec hc.1
    · rw [if_neg hc] at hk
      obtain ⟨pr'', hpr'', hip''⟩ := hMacs k v hk
      refine ⟨pr'', ?_, hip''⟩
      rw [operate_update_peers]
      by_cases hv : v = id
      · exfalso
        subst hv
        have hcc := (hcomp v pr'' hpr'').1 rfl
        have hk2 : macStrOf pr = k := macStrOf_eq_some (hcc.2.trans hip'')
        have hkne : k ≠ "" := by
          intro hkk
          exact (hWF v pr'' hpr'').2.2 (hkk ▸ hip'')
        exact hc ⟨by rw [hk2]; exact hkne, hk2.symm⟩
      · rw [if_neg hv]; exact hpr''
  · -- IP index complete
    intro id' pr' k hpeers' hip'
    rw [operate_update_peers] at hpeers'
    rw [operate_update_ip]
    by_cases hidd : id' = id
    · subst hidd
      rw [if_pos rfl] at hpeers'
      injection hpeers' with hpe
      rw [← hpe] at hip'
      have hk : ipStrOf pr = k := ipStrOf_eq_some hip'
      have hkne : k ≠ "" := fun hkk => hwfIP (hkk ▸ hip')
      rw [if_pos ⟨by rw [hk]; exact hkne, hk.symm⟩]
    · rw [if_neg hidd] at hpeers'
      have hold := hIPc id' pr' k hpeers' hip'
      rw [if_neg ?_]
      · exact hold
      · rintro ⟨hne, hkk⟩
        have hsome : pr.peerLocalIP = some k := by
          rw [hkk]; exact ipStrOf_spec hne
        have hcc := (hcomp id' pr' hpeers').2 (fun h => hidd h.symm)
        have := hcc.1 (hsome.trans hip'.symm)
        rw [this] at hsome
        cases hsome
  · -- MAC index complete
    intro id' pr' k hpeers' hip'
    rw [operate_update_peers] at hpeers'
    rw [operate_update_mac]
    by_cases hidd : id' = id
    · subst hidd
      rw [if_pos rfl] at hpeers'
      injection hpeers' with hpe
      rw [← hpe] at hip'
      have hk : macStrOf pr = k := macStrOf_eq_some hip'
      have hkne : k ≠ "" := fun hkk => hwfMac (hkk ▸ hip')
      rw [if_pos ⟨by rw [hk]; exact hkne, hk.symm⟩]
    · rw [if_neg hidd] at hpeers'
      have hold := hMacc id' pr' k hpeers' hip'
      rw [if_neg ?_]
      · exact hold
      · rintro ⟨hne, hkk⟩
        have hsome : pr.peerHW = some k := by
          rw [hkk]; exact macStrOf_spec hne
        have hcc := (hcomp id' pr' hpeers').2 (fun h => hidd h.symm)
        have := hcc.2 (hsome.trans hip'.symm)
        rw [this] at hsome
        cases hsome
  · -- live entries well formed
    intro id' pr' h'
    rw [operate_update_peers] at h'
    by_cases hidd : id' = id
    · rw [if_pos hidd] at h'
      injection h' with h'
      subst h'
      exact ⟨hwfIP, hwfNil, hwfMac⟩
    · rw [if_neg hidd] at h'
      exact hWF id' pr' h'

theorem swarmInv_delete (l : Swarm) (id : String) (hinv : SwarmInv l) :
    SwarmInv ((l.operate (.delete id)).1) := by
  rcases hl : l.peers id with _ | pr
  · rw [operate_delete_absent l id hl]
    exact hinv
  obtain ⟨hIPs, hMacs, hIPc, hMacc, hWF⟩ := hinv
  refine ⟨?_, ?_, ?_, ?_, ?_⟩
  · -- IP index sound
    intro k v hk
    rw [operate_delete_ip l id pr hl] at hk
    by_cases hc : goIPString pr.peerLocalIP ≠ "" ∧ k = goIPString pr.peerLocalIP
    · rw [if_pos hc] at hk; cases hk
    · rw [if_neg hc] at hk
      obtain ⟨pr'', hpr'', hip''⟩ := hIPs k v hk
      refine ⟨pr'', ?_, hip''⟩
      rw [operate_delete_peers l id pr hl]
      by_cases hv : v = id
      · exfalso
        subst hv
        rw [hl] at hpr''
        injection hpr'' with hpr''
        subst hpr''
        have hgo : goIPString pr.peerLocalIP = k := by rw [hip'']; simp [goIPString]
        have hkne : k ≠ "" := fun hkk => (hWF v pr hl).1 (hkk ▸ hip'')
        exact hc ⟨by rw [hgo]; exact hkne, hgo.symm⟩
      · rw [if_neg hv]; exact hpr''
  · -- MAC index sound
    intro k v hk
    rw [operate_delete_mac l id pr hl] at hk
    by_cases hc : goHWString pr.peerHW ≠ "" ∧ k = goHWString pr.peerHW
    · rw [if_pos hc] at hk; cases hk
    · rw [if_neg hc] at hk
      obtain ⟨pr'', hpr'', hip''⟩ := hMacs k v hk
      refine ⟨pr'', ?_, hip''⟩
      rw [operate_delete_peers l id pr hl]
      by_cases hv : v = id
      · exfalso
        subst hv
        rw [hl] at hpr''
        injection hpr'' with hpr''
        subst hpr''
        have hgo : goHWString pr.peerHW = k := by rw [hip'']; simp [goHWString]
        have hkne : k ≠ "" := fun hkk => (hWF v pr hl).2.2 (hkk ▸ hip'')
        exact hc ⟨by rw [hgo]; exact hkne, hgo.symm⟩
      · rw [if_neg hv]; exact hpr''
  · -- IP index complete
    intro id' pr' k hpeers' hip'
    rw [operate_delete_peers l id pr hl] at hpeers'
    by_cases hidd : id' = id
    · rw [if_pos hidd] at hpeers'; cases hpeers'
    · rw [if_neg hidd] at hpeers'
      have hold := hIPc id' pr' k hpeers' hip'
      rw [operate_delete_ip l id pr hl]
      rw [if_neg ?_]
      · exact hold
      · rintro ⟨hne, hkk⟩
        rcases hp : pr.peerLocalIP with _ | a
        · have hknil : k = "<nil>" := by rw [hp] at hkk; exact hkk
          exact (hWF id' pr' hpeers').2.1 (hknil ▸ hip')
        · have hk2 : pr.peerLocalIP = some k := by
            rw [hp] at hkk
            rw [hp, hkk]
            rfl
          have h1 := hIPc id pr k hl hk2
          rw [hold] at h1
          injection h1 with h1
          exact hidd h1
  · -- MAC index complete
    intro id' pr' k hpeers' hip'
    rw [operate_delete_peers l id pr hl] at hpeers'
    by_cases hidd : id' = id
    · rw [if_pos hidd] at hpeers'; cases hpeers'
    · rw [if_neg hidd] at hpeers'
      have hold := hMacc id' pr' k hpeers' hip'
      rw [operate_delete_mac l id pr hl]
      rw [if_neg ?_]
      · exact hold
      · rintro ⟨hne, hkk⟩
        rcases hp : pr.peerHW with _ | a
        · rw [hp] at hne
          exact hne rfl
        · have hk2 : pr.peerHW = some k := by
            rw [hp] at hkk
            rw [hp, hkk]
            rfl
          have h1 := hMacc id pr k hl hk2
          rw [hold] at h1
          injection h1 with h1
          exact hidd h1
  · -- live entries well formed
    intro id' pr' h'
    rw [operate_delete_peers l id pr hl] at h'
    by_cases hidd : id' = id
    · rw [if_pos hidd] at h'; cases h'
    · rw [if_neg hidd] at h'
      exact hWF id' pr' h'

theorem compat_operate_update (l : Swarm) (id : String) (pr : NetworkPeer)
    (rest : List SwarmOp)
    (hcomp : Compat l (SwarmOp.update id pr :: rest))
    (hall : ∀ op ∈ rest, (SwarmOp.update id pr).compat op) :
    Compat ((l.operate (.update id pr)).1) rest := by
  intro id' pr' h' op hop
  rw [operate_update_peers] at h'
  by_cases hidd : id' = id
  · subst hidd
    rw [if_pos rfl] at h'
    injection h' with h'
    subst h'
    have hco := hall op hop
    cases op with
    | update j q =>
        obtain ⟨hsame, hdiff⟩ := hco
        refine ⟨?_, ?_⟩
        · intro hji
          obtain ⟨h1, h2⟩ := hsame hji.symm
          exact ⟨h1.symm, h2.symm⟩
        · intro hji
          obtain ⟨h1, h2⟩ := hdiff (Ne.symm hji)
          constructor
          · intro he
            exact he.trans (h1 he.symm)
          · intro he
            exact he.trans (h2 he.symm)
    | delete j => trivial
  · rw [if_neg hidd] at h'
    exact hcomp id' pr' h' op (List.mem_cons_of_mem _ hop)

theorem compat_operate_delete (l : Swarm) (id : String) (ops : List SwarmOp)
    (h : Compat l ops) :
    Compat ((l.operate (.delete id)).1) ops := by
  intro id' pr' h' op hop
  rcases hl : l.peers id with _ | pr
  · rw [operate_delete_absent l id hl] at h'
    exact h id' pr' h' op hop
  · rw [operate_delete_peers l id pr hl] at h'
    by_cases hidd : id' = id
    · rw [if_pos hidd] at h'; cases h'
    · rw [if_neg hidd] at h'
      exact h id' pr' h' op hop

theorem swarmInv_applyOps (ops : List SwarmOp) :
    ∀ l : Swarm, SwarmInv l → Compat l ops → GoodOps ops → SwarmInv (applyOps l ops) := by
  induction ops with
  | nil =>
      intro l h _ _
      simpa [applyOps] using h
  | cons op rest ih =>
      intro l hinv hcomp hgood
      obtain ⟨hwf, hpair⟩ := hgood
      rw [List.pairwise_cons] at hpair
      obtain ⟨hallcompat, hrest⟩ := hpair
      have hgoodrest : GoodOps rest :=
        ⟨fun o ho => hwf o (List.mem_cons_of_mem _ ho), hrest⟩
      have happ : applyOps l (op :: rest) = applyOps ((l.operate op).1) rest := by
        simp [applyOps]
      rw [happ]
      cases op with
      | update id pr =>
          refine ih _ ?_ ?_ hgoodrest
          · exact swarmInv_update l id pr hinv (hwf _ (List.mem_cons_self _ _))
              (fun id' pr' hp => hcomp id' pr' hp _ (List.mem_cons_self _ _))
          · exact compat_operate_update l id pr rest hcomp hallcompat
      | delete id =>
          refine ih _ ?_ ?_ hgoodrest
          · exact swarmInv_delete l id hinv
          · exact compat_operate_delete l id rest
              (fun id' pr' hp o ho => hcomp id' pr' hp o (List.mem_cons_of_mem _ ho))

/-- C1 (amended): starting from an initialized Swarm table, for every
sequence of `Update`/`Delete` mutations in which a peer's rendered overlay
IP and MAC never change across updates of the same id and are never shared
between distinct ids (and present renderings are non-degenerate strings),
the resulting table is index consistent: every live `(id, peer)` entry is
backed by both secondary indexes at its addresses, and no index key maps to
an absent id — in particular, after a `Delete` of an id neither index maps
any key to it. -/
theorem c1_index_consistency (ops : List SwarmOp) (h : GoodOps ops) :
    IndexConsistent (applyOps initSwarm ops) := by
  have hcompat : Compat initSwarm ops := by
    intro id pr hp op hop
    simp [initSwarm] at hp
  have hinv := swarmInv_applyOps ops initSwarm swarmInv_init hcompat h
  obtain ⟨hIPs, hMacs, hIPc, hMacc, hWF⟩ := hinv
  constructor
  · intro id pr hp
    exact ⟨fun k hk => hIPc id pr k hp hk, fun k hk => hMacc id pr k hp hk⟩
  · intro id hid k
    constructor
    · intro hk
      obtain ⟨pr, hpr, _⟩ := hIPs k id hk
      rw [hid] at hpr
      cases hpr
    · intro hk
      obtain ⟨pr, hpr, _⟩ := hMacs k id hk
      rw [hid] at hpr
      cases hpr

/-- Witness for C1: a concrete well-behaved sequence — two peers with
distinct addresses are added and one of them deleted — satisfies the
hypothesis and hence the invariant. -/
theorem c1_index_consistency_witness :
    GoodOps
      [SwarmOp.update "A" ⟨some "10.0.0.1", some "06:01:02:03:04:05", none, PeerState.connected⟩,
       SwarmOp.update "B" ⟨some "10.0.0.2", some "06:0a:0b:0c:0d:0e", none, PeerState.connected⟩,
       SwarmOp.delete "A"] ∧
    IndexConsistent (applyOps initSwarm
      [SwarmOp.update "A" ⟨some "10.0.0.1", some "06:01:02:03:04:05", none, PeerState.connected⟩,
       SwarmOp.update "B" ⟨some "10.0.0.2", some "06:0a:0b:0c:0d:0e", none, PeerState.connected⟩,
       SwarmOp.delete "A"]) :=
  ⟨by decide, c1_index_consistency _ (by decide)⟩

/-- C1 counterexample: the claim as stated — index consistency after *any*
sequence of `Update`/`Delete` operations, including an update that replaces
an existing peer entry with a different overlay IP — is false.  Updating
`"A"` from IP `10.0.0.1` to `10.0.0.9` leaves the stale index entry
`10.0.0.1 → "A"` behind, and it survives the subsequent delete of `"A"`. -/
theorem c1_counterexample :
    ¬ ∀ ops : List SwarmOp, IndexConsistent (applyOps initSwarm ops) := by
  intro h
  have h2 := (h [SwarmOp.update "A" ⟨some "10.0.0.1", some "06:01:02:03:04:05", none, PeerState.connected⟩,
                 SwarmOp.update "A" ⟨some "10.0.0.9", some "06:01:02:03:04:05", none, PeerState.connected⟩,
                 SwarmOp.delete "A"]).2 "A" (by decide) "10.0.0.1"
  exact h2.1 (by decide)

/-! ### C2: `removeStoppedPeers` -/

/-- C2 (amended): one `removeStoppedPeers` call removes at most one peer:
exactly the first snapshot entry whose state is `STOPPED` (the loop breaks
after the first deletion), and no other table entry changes; when no
snapshot entry is stopped the call leaves the table untouched. -/
theorem c2_remove_first_stopped (s : Swarm) (snap : List (String × NetworkPeer)) :
    (snap.find? (fun e => e.2.state = PeerState.stop) = none → removeStoppedPeers s snap = s) ∧
    (∀ e, snap.find? (fun e => e.2.state = PeerState.stop) = some e →
      removeStoppedPeers s snap = Swarm.Delete s e.1 ∧
      (removeStoppedPeers s snap).peers e.1 = none ∧
      ∀ j, j ≠ e.1 → (removeStoppedPeers s snap).peers j = s.peers j) := by
  constructor
  · intro hf
    unfold removeStoppedPeers
    rw [hf]
  · intro e hf
    have hrw : removeStoppedPeers s snap = Swarm.Delete s e.1 := by
      unfold removeStoppedPeers
      rw [hf]
    refine ⟨hrw, ?_, ?_⟩
    · rw [hrw]
      unfold Swarm.Delete
      rcases hl : s.peers e.1 with _ | pr
      · rw [operate_delete_absent s e.1 hl]
        exact hl
      · rw [operate_delete_peers s e.1 pr hl, if_pos rfl]
    · intro j hj
      rw [hrw]
      unfold Swarm.Delete
      rcases hl : s.peers e.1 with _ | pr
      · rw [operate_delete_absent s e.1 hl]
      · rw [operate_delete_peers s e.1 pr hl, if_neg hj]

/-- Witness for C2 (amended): on a concrete table with one stopped peer
`"A"` and one connected peer `"B"`, the call deletes `"A"` and leaves `"B"`
untouched. -/
theorem c2_remove_first_stopped_witness :
    (removeStoppedPeers
        (applyOps initSwarm
          [SwarmOp.update "A" ⟨some "10.0.0.1", some "06:01:02:03:04:05", none, PeerState.stop⟩,
           SwarmOp.update "B" ⟨some "10.0.0.2", some "06:0a:0b:0c:0d:0e", none, PeerState.connected⟩])
        [("A", ⟨some "10.0.0.1", some "06:01:02:03:04:05", none, PeerState.stop⟩),
         ("B", ⟨some "10.0.0.2", some "06:0a:0b:0c:0d:0e", none, PeerState.connected⟩)]).peers "A" = none ∧
    (removeStoppedPeers
        (applyOps initSwarm
          [SwarmOp.update "A" ⟨some "10.0.0.1", some "06:01:02:03:04:05", none, PeerState.stop⟩,
           SwarmOp.update "B" ⟨some "10.0.0.2", some "06:0a:0b:0c:0d:0e", none, PeerState.connected⟩])
        [("A", ⟨some "10.0.0.1", some "06:01:02:03:04:05", none, PeerState.stop⟩),
         ("B", ⟨some "10.0.0.2", some "06:0a:0b:0c:0d:0e", none, PeerState.connected⟩)]).peers "B" =
      (applyOps initSwarm
          [SwarmOp.update "A" ⟨some "10.0.0.1", some "06:01:02:03:04:05", none, PeerState.stop⟩,
           SwarmOp.update "B" ⟨some "10.0.0.2", some "06:0a:0b:0c:0d:0e", none, PeerState.connected⟩]).peers "B" :=
  ⟨((c2_remove_first_stopped _ _).2
      ("A", ⟨some "10.0.0.1", some "06:01:02:03:04:05", none, PeerState.stop⟩) (by decide)).2.1,
   ((c2_remove_first_stopped _ _).2
      ("A", ⟨some "10.0.0.1", some "06:01:02:03:04:05", none, PeerState.stop⟩) (by decide)).2.2
     "B" (by decide)⟩

/-- C2 counterexample: the claim as stated — after one call no stopped peer
remains, for any snapshot with `k ≥ 0` stopped peers — fails for `k = 2`:
with two stopped peers the loop deletes the first and breaks, leaving the
second in the table. -/
theorem c2_counterexample :
    ¬ ∀ (s : Swarm) (snap : List (String × NetworkPeer)), ValidSnapshot s snap →
        ∀ id pr, (removeStoppedPeers s snap).peers id = some pr →
          pr.state ≠ PeerState.stop := by
  intro h
  have hvalid : ValidSnapshot
      (applyOps initSwarm
        [SwarmOp.update "A" ⟨some "10.0.0.1", some "06:01:02:03:04:05", none, PeerState.stop⟩,
         SwarmOp.update "B" ⟨some "10.0.0.2", some "06:0a:0b:0c:0d:0e", none, PeerState.stop⟩])
      [("A", ⟨some "10.0.0.1", some "06:01:02:03:04:05", none, PeerState.stop⟩),
       ("B", ⟨some "10.0.0.2", some "06:0a:0b:0c:0d:0e", none, PeerState.stop⟩)] := by
    constructor
    · intro id pr
      have hpk : (applyOps initSwarm
          [SwarmOp.update "A" ⟨some "10.0.0.1", some "06:01:02:03:04:05", none, PeerState.stop⟩,
           SwarmOp.update "B" ⟨some "10.0.0.2", some "06:0a:0b:0c:0d:0e", none, PeerState.stop⟩]).peers id =
          if id = "B" then some ⟨some "10.0.0.2", some "06:0a:0b:0c:0d:0e", none, PeerState.stop⟩
          else if id = "A" then some ⟨some "10.0.0.1", some "06:01:02:03:04:05", none, PeerState.stop⟩
          else none := by
        show ((initSwarm.operate _).1.operate _).1.peers id = _
        rw [operate_update_peers, operate_update_peers]
        simp [initSwarm]
      rw [hpk]
      constructor
      · intro hm
        simp only [List.mem_cons, List.not_mem_nil, or_false, Prod.mk.injEq] at hm
        rcases hm with ⟨rfl, rfl⟩ | ⟨rfl, rfl⟩ <;> decide
      · intro hp
        by_cases hB : id = "B"
        · subst hB
          rw [if_pos rfl] at hp
          injection hp with hp
          subst hp
          simp
        · rw [if_neg hB] at hp
          by_cases hA : id = "A"
          · subst hA
            rw [if_pos rfl] at hp
            injection hp with hp
            subst hp
            simp
          · rw [if_neg hA] at hp
            cases hp
    · decide
  have hres := h _ _ hvalid "B"
    ⟨some "10.0.0.2", some "06:0a:0b:0c:0d:0e", none, PeerState.stop⟩ (by decide)
  exact hres rfl

/-! ### C3: auto-IP candidate probing -/

theorem mem_probeOutcome {claimed : Nat → Bool} {cands : List Nat} {x : Nat}
    (h : x ∈ (probeOutcome claimed cands).1) : x ∈ cands := by
  induction cands with
  | nil => simp [probeOutcome] at h
  | cons a l ih =>
      by_cases hc : claimed a
      · simp only [probeOutcome, List.takeWhile_cons, List.dropWhile_cons, hc, if_pos,
          List.cons_append, List.mem_cons] at h
        rcases h with rfl | h
        · exact List.mem_cons_self _ _
        · exact List.mem_cons_of_mem _ (ih h)
      · simp only [probeOutcome, List.takeWhile_cons, List.dropWhile_cons, hc] at h
        simp only [Bool.false_eq_true, if_false, List.nil_append, List.take_succ_cons,
          List.take_zero, List.mem_singleton] at h
        subst h
        exact List.mem_cons_self _ _

theorem head_dropWhile_eq_find {α : Type} (p : α → Bool) (l : List α) :
    (l.dropWhile p).head? = l.find? (fun a => !p a) := by
  induction l with
  | nil => rfl
  | cons a l ih =>
      by_cases hp : p a <;> simp [List.dropWhile_cons, List.find?_cons, hp, ih]

theorem range_reverse_succ (n : Nat) :
    (List.range (n + 1)).reverse = n :: (List.range n).reverse := by
  rw [List.range_succ, List.reverse_append]
  rfl

theorem discoverLoop_probe (claimed : Nat → Bool) (n : Nat) :
    discoverLoop claimed n = probeOutcome claimed ((List.range n).reverse) := by
  induction n with
  | zero => simp [discoverLoop, probeOutcome]
  | succ i ih =>
      rw [range_reverse_succ]
      by_cases hc : claimed i
      · simp [discoverLoop, hc, ih, probeOutcome, List.takeWhile_cons, List.dropWhile_cons]
      · simp [discoverLoop, hc, probeOutcome, List.takeWhile_cons, List.dropWhile_cons]

/-- C3 (amended): for every claim oracle, the probing loop of `discoverIP`
probes the candidates `a.b.c.254, a.b.c.253, …, a.b.c.1, a.b.c.0` in that
order — the claimed ones in sequence, then the first unclaimed one — and
installs the first unclaimed candidate of that order (none when all 255
candidates are claimed); the address `a.b.c.255` is never probed. -/
theorem c3_discover_order (claimed : Nat → Bool) :
    discoverIP claimed = probeOutcome claimed codeCandidates ∧
    (discoverIP claimed).2 = codeCandidates.find? (fun c => !claimed c) ∧
    255 ∉ (discoverIP claimed).1 := by
  have h1 : discoverIP claimed = probeOutcome claimed codeCandidates :=
    discoverLoop_probe claimed 255
  refine ⟨h1, ?_, ?_⟩
  · rw [h1]
    exact head_dropWhile_eq_find claimed codeCandidates
  · rw [h1]
    intro hmem
    have hsub : 255 ∈ codeCandidates := mem_probeOutcome hmem
    have : (255 : Nat) < 255 := List.mem_range.mp (List.mem_reverse.mp hsub)
    omega

set_option maxRecDepth 4000 in
/-- C3 counterexample: the claim's probing order starts at `a.b.c.255`; with
no peer claiming any address the code would then have to install `.255`,
but it probes and installs `.254`. -/
theorem c3_counterexample :
    ¬ ∀ claimed : Nat → Bool, discoverIP claimed = probeOutcome claimed specCandidates := by
  intro h
  exact absurd (h (fun _ => false)) (by decide)

/-! ### C4: `Close` ordering -/

/-- C4 (amended): `Close` performs its steps in this order: deactivate the
interface registry entry, instruct every peer to `DISCONNECT`, wait for the
swarm to drain, *then* mark shutdown, then close rendezvous client, UDP
socket and device, and finally mark ready-to-stop.  The shutdown flag is
set only after the peers have been instructed, and both flags are set when
`Close` returns. -/
theorem c4_close_order (st : InstanceState) (snap : List (String × NetworkPeer)) :
    (closeInstance st snap).2 =
      [CloseEvent.deactivateInterface, CloseEvent.setPeersDisconnect, CloseEvent.drainWait,
       CloseEvent.markShutdown, CloseEvent.closeDHT, CloseEvent.closeSocket,
       CloseEvent.closeDevice, CloseEvent.markReady] ∧
    (closeInstance st snap).1.shutdown = true ∧
    (closeInstance st snap).1.readyToStop = true :=
  ⟨rfl, rfl, rfl⟩

/-- C4 counterexample: the claimed order (mark shutdown first, before the
peers are instructed to disconnect) does not match the emitted step
sequence on any state — shown at a concrete one. -/
theorem c4_counterexample :
    ¬ ∀ (st : InstanceState) (snap : List (String × NetworkPeer)),
        (closeInstance st snap).2 = specCloseOrder := by
  intro h
  exact absurd (h ⟨false, false, [], none, initSwarm, false, false, false⟩ []) (by decide)

/-! ### C8: deletion of an absent id -/

theorem swarmExt {s t : Swarm} (hp : s.peers = t.peers) (hi : s.tableIPID = t.tableIPID)
    (hm : s.tableMacID = t.tableMacID) : s = t := by
  cases s
  cases t
  simp_all

/-- C8 (amended): deleting an id that is not in the table is a no-op on the
table, and the internal mutator `operate` reports it with an error
distinguishable from success (which is `nil`); deleting a present id
removes it and `operate` reports success.  The *public* `Delete` wrapper,
however, discards `operate`'s result, so its caller receives no report
either way. -/
theorem c8_delete_semantics (s : Swarm) (id : String) :
    (s.peers id = none →
      (s.operate (.delete id)).1 = s ∧
      (s.operate (.delete id)).2 = some "can't delete peer: entry doesn't exists" ∧
      Swarm.Delete s id = s) ∧
    (∀ pr, s.peers id = some pr →
      (s.operate (.delete id)).2 = none ∧
      (Swarm.Delete s id).peers id = none) := by
  constructor
  · intro h
    have habs := operate_delete_absent s id h
    refine ⟨by rw [habs], by rw [habs], ?_⟩
    unfold Swarm.Delete
    rw [habs]
  · intro pr h
    constructor
    · simp [Swarm.operate, h]
    · unfold Swarm.Delete
      rw [operate_delete_peers s id pr h, if_pos rfl]

/-- Witness for C8 (amended): on the empty table, deleting `"A"` leaves the
table unchanged and `operate` reports the error; after adding `"A"`,
deleting it succeeds and removes it. -/
theorem c8_delete_semantics_witness :
    (initSwarm.operate (.delete "A")).2 = some "can't delete peer: entry doesn't exists" ∧
    ((Swarm.Delete
        ((initSwarm.operate (.update "A" ⟨some "10.0.0.1", some "06:01:02:03:04:05", none,
          PeerState.connected⟩)).1) "A").peers "A" = none) :=
  ⟨((c8_delete_semantics initSwarm "A").1 rfl).2.1,
   ((c8_delete_semantics _ "A").2 ⟨some "10.0.0.1", some "06:01:02:03:04:05", none,
      PeerState.connected⟩ (by decide)).2⟩

/-- C8 counterexample: the claim's reporting requirement fails for the
public `Delete`: it returns only the table, and deleting an absent id from
the empty table yields the same value as successfully deleting the only
peer of a one-peer table, so no function of the public result can tell the
reported-error case from the success case. -/
theorem c8_counterexample :
    ¬ ∃ f : Swarm → Bool, ∀ s id, f (Swarm.Delete s id) = (s.peers id).isSome := by
  rintro ⟨f, hf⟩
  have h1 := hf initSwarm "A"
  have h2 := hf ((initSwarm.operate (.update "A" ⟨none, none, none, PeerState.init⟩)).1) "A"
  have hup : ((initSwarm.operate (.update "A" ⟨none, none, none, PeerState.init⟩)).1).peers "A" =
      some ⟨none, none, none, PeerState.init⟩ := by
    rw [operate_update_peers]
    simp
  have hd0 : Swarm.Delete initSwarm "A" = initSwarm := by
    unfold Swarm.Delete
    rw [operate_delete_absent initSwarm "A" rfl]
  have hds : Swarm.Delete ((initSwarm.operate (.update "A" ⟨none, none, none, PeerState.init⟩)).1) "A"
      = initSwarm := by
    apply swarmExt
    · funext k
      unfold Swarm.Delete
      rw [operate_delete_peers _ "A" _ hup, operate_update_peers]
      by_cases hk : k = "A" <;> simp [hk, initSwarm]
    · funext k
      unfold Swarm.Delete
      rw [operate_delete_ip _ "A" _ hup, operate_update_ip]
      split_ifs <;> simp_all [initSwarm, ipStrOf, goIPString]
    · funext k
      unfold Swarm.Delete
      rw [operate_delete_mac _ "A" _ hup, operate_update_mac]
      split_ifs <;> simp_all [initSwarm, macStrOf, goHWString]
  rw [hd0] at h1
  rw [hds, hup] at h2
  rw [h1] at h2
  simp [initSwarm] at h2

/-! ### C9: latency probe rate limiting -/

theorem measure_recent (e : EndpointRec) (sock createOk : Bool) (id : String) (now : Nat)
    (hlt : now - e.lastLatencyQuery < EndpointLatencyRequestInterval) :
    Endpoint.Measure e sock createOk id now = (e, none) := by
  rcases haddr : e.addr with _ | a
  · by_cases hb : e.broken <;> simp [Endpoint.Measure, haddr, hb]
  · by_cases hb : e.broken
    · simp [Endpoint.Measure, hb]
    · by_cases hs : sock <;> simp [Endpoint.Measure, haddr, hb, hs, hlt]

theorem measure_sent {e : EndpointRec} {sock createOk : Bool} {id : String} {now : Nat}
    {e' : EndpointRec} {out : List Nat × UDPAddr}
    (hm : Endpoint.Measure e sock createOk id now = (e', some out)) :
    e.broken = false ∧ sock = true ∧ createOk = true ∧
    EndpointLatencyRequestInterval ≤ now - e.lastLatencyQuery ∧
    e'.lastLatencyQuery = now ∧ e'.broken = false := by
  rcases haddr : e.addr with _ | a <;> rw [Endpoint.Measure] at hm
  · by_cases hb : e.broken <;> simp [haddr, hb] at hm
  · by_cases hb : e.broken
    · simp [hb] at hm
    · by_cases hs : sock
      · by_cases hq : now - e.lastLatencyQuery < EndpointLatencyRequestInterval
        · simp [haddr, hb, hs, hq] at hm
        · by_cases hco : createOk
          · simp [haddr, hb, hs, hq, hco] at hm
            have hb' : e.broken = false := by simpa using hb
            refine ⟨hb', hs, hco, by omega, ?_, ?_⟩
            · rw [← hm.1]
            · rw [← hm.1]
          · simp [haddr, hb, hs, hq, hco] at hm
      · simp [haddr, hb, hs] at hm

/-- C9: `Measure` never sends through a broken endpoint and is rate
limited: it is a no-op when the endpoint is broken or when less than
`EndpointLatencyRequestInterval` has elapsed since `lastLatencyQuery`; a
send stamps `lastLatencyQuery` with the current time, so a second call
within the interval after a send sends nothing. -/
theorem c9_measure_rate_limit (e : EndpointRec) (sock createOk : Bool) (id : String) (now : Nat) :
    (e.broken = true → Endpoint.Measure e sock createOk id now = (e, none)) ∧
    (now - e.lastLatencyQuery < EndpointLatencyRequestInterval →
      Endpoint.Measure e sock createOk id now = (e, none)) ∧
    (∀ e' out, Endpoint.Measure e sock createOk id now = (e', some out) →
      e.broken = false ∧ EndpointLatencyRequestInterval ≤ now - e.lastLatencyQuery ∧
      e'.lastLatencyQuery = now) ∧
    (∀ e' out now2, Endpoint.Measure e sock createOk id now = (e', some out) →
      now2 - now < EndpointLatencyRequestInterval →
      Endpoint.Measure e' sock createOk id now2 = (e', none)) := by
  refine ⟨?_, ?_, ?_, ?_⟩
  · intro hb
    simp [Endpoint.Measure, hb]
  · intro hlt
    exact measure_recent e sock createOk id now hlt
  · intro e' out hm
    obtain ⟨hb, _, _, hge, hlq, _⟩ := measure_sent hm
    exact ⟨hb, hge, hlq⟩
  · intro e' out now2 hm hlt2
    obtain ⟨hb, _, _, hge, hlq, _⟩ := measure_sent hm
    exact measure_recent e' sock createOk id now2 (by rw [hlq]; exact hlt2)

/-- Witness for C9: a broken endpoint is skipped, and an endpoint probed
moments ago is skipped. -/
theorem c9_measure_rate_limit_witness :
    Endpoint.Measure ⟨some ⟨⟨1, 2, 3, 4⟩, 80⟩, 0, 0, true, 0, 0⟩ true true "x" 20000 =
      (⟨some ⟨⟨1, 2, 3, 4⟩, 80⟩, 0, 0, true, 0, 0⟩, none) ∧
    Endpoint.Measure ⟨some ⟨⟨1, 2, 3, 4⟩, 80⟩, 0, 0, false, 0, 15000⟩ true true "x" 20000 =
      (⟨some ⟨⟨1, 2, 3, 4⟩, 80⟩, 0, 0, false, 0, 15000⟩, none) :=
  ⟨(c9_measure_rate_limit ⟨some ⟨⟨1, 2, 3, 4⟩, 80⟩, 0, 0, true, 0, 0⟩ true true "x" 20000).1 rfl,
   (c9_measure_rate_limit ⟨some ⟨⟨1, 2, 3, 4⟩, 80⟩, 0, 0, false, 0, 15000⟩ true true "x" 20000).2.1
     (by decide)⟩

/-! ### C10: `SendTo` silent drop -/

/-- C10: with a live instance (non-nil swarm, socket, destination and
message), a destination whose hardware address does not resolve to an
endpoint through the Swarm table (unknown MAC, unknown id, or a peer
without endpoint — all of which make `GetEndpoint` fail) yields `(0, nil)`:
a silently dropped message indistinguishable from a successful zero-byte
send; and any transport error comes from a send on a successfully resolved
endpoint. -/
theorem c10_sendto_drop (sw : Swarm) (send : P2PMessage → UDPAddr → Int × Option String)
    (d : String) (m : P2PMessage) :
    (∀ err, sw.GetEndpoint d = .error err →
      SendTo (some sw) (some send) (some d) (some m) = (0, none)) ∧
    (∀ ep, sw.GetEndpoint d = .ok ep →
      SendTo (some sw) (some send) (some d) (some m) = send m ep) ∧
    (∀ n err, SendTo (some sw) (some send) (some d) (some m) = (n, some err) →
      ∃ ep, sw.GetEndpoint d = .ok ep ∧ send m ep = (n, some err)) := by
  refine ⟨?_, ?_, ?_⟩
  · intro err h
    simp [SendTo, h]
  · intro ep h
    simp [SendTo, h]
  · intro n err h
    rcases hge : sw.GetEndpoint d with e | ep
    · simp [SendTo, hge] at h
    · refine ⟨ep, rfl, ?_⟩
      simpa [SendTo, hge] using h

/-- Witness for C10: on the empty table every destination is unresolved and
`SendTo` returns `(0, nil)` even though the socket would report an error. -/
theorem c10_sendto_drop_witness :
    SendTo (some initSwarm) (some (fun _ _ => (-1, some "transport error")))
      (some "06:01:02:03:04:05") (some ⟨[1, 2]⟩) = (0, none) :=
  (c10_sendto_drop initSwarm (fun _ _ => (-1, some "transport error"))
    "06:01:02:03:04:05" ⟨[1, 2]⟩).1 "Specified hardware address was not found in table" rfl

/-! ### Decimal and character lemmas -/

theorem digitChar_big (n : Nat) (h : ¬ n < 16) : Nat.digitChar n = '*' := by
  unfold Nat.digitChar
  repeat rw [if_neg (by omega)]

theorem digitChar_isDigit : ∀ m, m < 10 → (Nat.digitChar m).isDigit = true := by decide

theorem digitVal_digitChar : ∀ m, m < 10 → digitVal (Nat.digitChar m) = m := by decide

theorem digitChar_ne_colon (n : Nat) : Nat.digitChar n ≠ ':' := by
  by_cases h : n < 16
  · exact (by decide : ∀ m, m < 16 → Nat.digitChar m ≠ ':') n h
  · rw [digitChar_big n h]
    decide

theorem digitChar_ne_comma (n : Nat) : Nat.digitChar n ≠ ',' := by
  by_cases h : n < 16
  · exact (by decide : ∀ m, m < 16 → Nat.digitChar m ≠ ',') n h
  · rw [digitChar_big n h]
    decide

theorem isDigit_ne {c d : Char} (h : c.isDigit = true) (hd : d.isDigit = false) : c ≠ d := by
  intro he
  subst he
  rw [h] at hd
  cases hd

theorem decRevAux_ne_nil : ∀ fuel n, n < fuel → decRevAux fuel n ≠ [] := by
  intro fuel
  induction fuel with
  | zero => intro n h; omega
  | succ f ih =>
      intro n h
      unfold decRevAux
      split <;> simp

theorem decRevAux_digits : ∀ fuel n, n < fuel → ∀ c ∈ decRevAux fuel n, c.isDigit = true := by
  intro fuel
  induction fuel with
  | zero => intro n h; omega
  | succ f ih =>
      intro n h c hc
      unfold decRevAux at hc
      split at hc
      · next h10 =>
          simp only [List.mem_singleton] at hc
          subst hc
          exact digitChar_isDigit n h10
      · next h10 =>
          rcases List.mem_cons.mp hc with rfl | hc2
          · exact digitChar_isDigit _ (Nat.mod_lt _ (by omega))
          · exact ih (n / 10) (by omega) c hc2

theorem parseVal_decRevAux : ∀ fuel n, n < fuel → ∀ acc : Nat,
    ((decRevAux fuel n).reverse).foldl (fun a c => a * 10 + digitVal c) acc =
      acc * 10 ^ (decRevAux fuel n).length + n := by
  intro fuel
  induction fuel with
  | zero => intro n h; omega
  | succ f ih =>
      intro n h acc
      by_cases h10 : n < 10
      · unfold decRevAux
        rw [if_pos h10]
        simp [digitVal_digitChar n h10]
      · unfold decRevAux
        rw [if_neg h10]
        rw [List.reverse_cons, List.foldl_append]
        rw [ih (n / 10) (by omega) acc]
        simp only [List.foldl_cons, List.foldl_nil, List.length_cons]
        rw [digitVal_digitChar _ (Nat.mod_lt _ (by omega))]
        rw [pow_succ, ← mul_assoc]
        have hmod := Nat.div_add_mod n 10
        set q := acc * 10 ^ (decRevAux f (n / 10)).length
        omega

theorem decStr_ne_nil (n : Nat) : decStr n ≠ [] := by
  unfold decStr decRev
  simp [decRevAux_ne_nil (n + 1) n (Nat.lt_succ_self n)]

theorem decStr_digits (n : Nat) : ∀ c ∈ decStr n, c.isDigit = true := by
  intro c hc
  exact decRevAux_digits (n + 1) n (Nat.lt_succ_self n) c (List.mem_reverse.mp hc)

theorem parseDec_decStr (n : Nat) : parseDec (decStr n) = some n := by
  have hcond : decStr n ≠ [] ∧ (decStr n).all Char.isDigit = true := by
    refine ⟨decStr_ne_nil n, ?_⟩
    rw [List.all_eq_true]
    intro c hc
    exact decStr_digits n c hc
  unfold parseDec
  rw [if_pos hcond]
  unfold decStr decRev
  rw [parseVal_decRevAux (n + 1) n (Nat.lt_succ_self n) 0]
  simp

theorem not_mem_decStr {d : Char} (hd : d.isDigit = false) (n : Nat) : d ∉ decStr n := by
  intro hmem
  have h := decStr_digits n d hmem
  rw [h] at hd
  cases hd

/-! ### Splitting and joining -/

theorem splitOnChar_ne_nil (sep : Char) (l : List Char) : splitOnChar sep l ≠ [] := by
  induction l with
  | nil => simp [splitOnChar]
  | cons c rest ih =>
      unfold splitOnChar
      by_cases hc : c = sep
      · simp [hc]
      · rcases hsplit : splitOnChar sep rest with _ | ⟨h1, t⟩ <;> simp [hc, hsplit]

theorem splitOnChar_no_sep {sep : Char} : ∀ {l : List Char}, sep ∉ l → splitOnChar sep l = [l] := by
  intro l
  induction l with
  | nil => intro _; rfl
  | cons c rest ih =>
      intro h
      have hc : ¬ c = sep := fun hh => h (hh ▸ List.mem_cons_self _ _)
      have hrest : sep ∉ rest := fun hh => h (List.mem_cons_of_mem _ hh)
      unfold splitOnChar
      rw [if_neg hc, ih hrest]

theorem splitOnChar_append {sep : Char} : ∀ {a : List Char}, sep ∉ a → ∀ b : List Char,
    splitOnChar sep (a ++ sep :: b) = a :: splitOnChar sep b := by
  intro a
  induction a with
  | nil => intro _ b; simp [splitOnChar]
  | cons c rest ih =>
      intro h b
      have hc : ¬ c = sep := fun hh => h (hh ▸ List.mem_cons_self _ _)
      have hrest : sep ∉ rest := fun hh => h (List.mem_cons_of_mem _ hh)
      show splitOnChar sep (c :: (rest ++ sep :: b)) = (c :: rest) :: splitOnChar sep b
      conv_lhs => unfold splitOnChar
      rw [if_neg hc, ih hrest b]

theorem splitOnChar_intercalate (sep : Char) :
    ∀ parts : List (List Char), parts ≠ [] → (∀ p ∈ parts, sep ∉ p) →
      splitOnChar sep (intercalateChar sep parts) = parts
  | [], h, _ => absurd rfl h
  | [x], _, hp => by
      show splitOnChar sep x = [x]
      exact splitOnChar_no_sep (hp x (List.mem_cons_self _ _))
  | x :: y :: ys, _, hp => by
      show splitOnChar sep (x ++ sep :: intercalateChar sep (y :: ys)) = x :: (y :: ys)
      rw [splitOnChar_append (hp x (List.mem_cons_self _ _)) _]
      rw [splitOnChar_intercalate sep (y :: ys) (by simp)
        (fun p hm => hp p (List.mem_cons_of_mem _ hm))]

theorem mem_intercalateChar {sep c : Char} :
    ∀ {parts : List (List Char)}, c ∈ intercalateChar sep parts →
      (∃ p ∈ parts, c ∈ p) ∨ c = sep
  | [], h => by simp [intercalateChar] at h
  | [x], h => Or.inl ⟨x, List.mem_cons_self _ _, h⟩
  | x :: y :: ys, h => by
      rcases List.mem_append.mp h with hx | hrest
      · exact Or.inl ⟨x, List.mem_cons_self _ _, hx⟩
      · rcases List.mem_cons.mp hrest with rfl | hr
        · exact Or.inr rfl
        · rcases mem_intercalateChar hr with ⟨p, hp, hcp⟩ | hcs
          · exact Or.inl ⟨p, List.mem_cons_of_mem _ hp, hcp⟩
          · exact Or.inr hcs

/-! ### MAC, IP and endpoint string round trips -/

set_option maxRecDepth 4000 in
theorem parseHexPair_hexPairChars : ∀ b, b < 256 → parseHexPair (hexPairChars b) = some b := by
  decide

theorem hexPairChars_no_colon (b : Nat) : (':' : Char) ∉ hexPairChars b := by
  intro h
  unfold hexPairChars at h
  rcases List.mem_cons.mp h with he | h2
  · exact digitChar_ne_colon (b / 16) he.symm
  · rcases List.mem_cons.mp h2 with he | h3
    · exact digitChar_ne_colon (b % 16) he.symm
    · cases h3

theorem hexPairChars_no_comma (b : Nat) : (',' : Char) ∉ hexPairChars b := by
  intro h
  unfold hexPairChars at h
  rcases List.mem_cons.mp h with he | h2
  · exact digitChar_ne_comma (b / 16) he.symm
  · rcases List.mem_cons.mp h2 with he | h3
    · exact digitChar_ne_comma (b % 16) he.symm
    · cases h3

theorem mapM_parseHexPair : ∀ hw : List Nat, (∀ b ∈ hw, b < 256) →
    (hw.map hexPairChars).mapM parseHexPair = some hw := by
  intro hw
  induction hw with
  | nil => intro _; rfl
  | cons b l ih =>
      intro hb
      simp only [List.map_cons, List.mapM_cons]
      rw [parseHexPair_hexPairChars b (hb b (List.mem_cons_self _ _))]
      rw [ih (fun x hx => hb x (List.mem_cons_of_mem _ hx))]
      rfl

theorem parseMAC_macToString (hw : List Nat) (hlen : hw.length = 6)
    (hb : ∀ b ∈ hw, b < 256) : parseMAC (macToString hw) = some hw := by
  have hsplit : splitOnChar ':' (intercalateChar ':' (hw.map hexPairChars)) =
      hw.map hexPairChars := by
    apply splitOnChar_intercalate
    · intro hnil
      have : hw = [] := by
        cases hw with
        | nil => rfl
        | cons a t => simp at hnil
      rw [this] at hlen
      cases hlen
    · intro p hp
      rcases List.mem_map.mp hp with ⟨b, _, rfl⟩
      exact hexPairChars_no_colon b
  unfold parseMAC macToString
  simp only
  rw [hsplit]
  rw [if_pos (by simp [hlen])]
  exact mapM_parseHexPair hw hb

theorem macToString_no_comma (hw : List Nat) : (',' : Char) ∉ (macToString hw).data := by
  intro h
  rcases mem_intercalateChar h with ⟨p, hp, hcp⟩ | he
  · rcases List.mem_map.mp hp with ⟨b, _, rfl⟩
    exact hexPairChars_no_comma b hcp
  · cases he

theorem parseDecOctet_decStr (n : Nat) (h : n < 256) : parseDecOctet (decStr n) = some n := by
  unfold parseDecOctet
  rw [parseDec_decStr]
  simp [h]

theorem parseIP4_ipToString (ip : IPv4) (h1 : ip.o1 < 256) (h2 : ip.o2 < 256)
    (h3 : ip.o3 < 256) (h4 : ip.o4 < 256) : parseIP4 (ipToString ip) = some ip := by
  have hsplit : splitOnChar '.' (intercalateChar '.'
      [decStr ip.o1, decStr ip.o2, decStr ip.o3, decStr ip.o4]) =
      [decStr ip.o1, decStr ip.o2, decStr ip.o3, decStr ip.o4] := by
    apply splitOnChar_intercalate
    · simp
    · intro p hp
      have hdot : ('.' : Char).isDigit = false := by decide
      rcases List.mem_cons.mp hp with rfl | hp2
      · exact not_mem_decStr hdot _
      rcases List.mem_cons.mp hp2 with rfl | hp3
      · exact not_mem_decStr hdot _
      rcases List.mem_cons.mp hp3 with rfl | hp4
      · exact not_mem_decStr hdot _
      rcases List.mem_cons.mp hp4 with rfl | hp5
      · exact not_mem_decStr hdot _
      cases hp5
  unfold parseIP4 ipToString
  simp only
  rw [hsplit]
  simp [parseDecOctet_decStr _ h1, parseDecOctet_decStr _ h2, parseDecOctet_decStr _ h3,
    parseDecOctet_decStr _ h4]

theorem ipToString_digit_or_dot (ip : IPv4) :
    ∀ c ∈ (ipToString ip).data, c.isDigit = true ∨ c = '.' := by
  intro c hc
  rcases mem_intercalateChar hc with ⟨p, hp, hcp⟩ | he
  · left
    rcases List.mem_cons.mp hp with rfl | hp2
    · exact decStr_digits _ c hcp
    rcases List.mem_cons.mp hp2 with rfl | hp3
    · exact decStr_digits _ c hcp
    rcases List.mem_cons.mp hp3 with rfl | hp4
    · exact decStr_digits _ c hcp
    rcases List.mem_cons.mp hp4 with rfl | hp5
    · exact decStr_digits _ c hcp
    cases hp5
  · right
    exact he

theorem ipToString_no_colon (ip : IPv4) : (':' : Char) ∉ (ipToString ip).data := by
  intro h
  rcases ipToString_digit_or_dot ip ':' h with hd | hd
  · cases hd
  · cases hd

theorem ipToString_no_comma (ip : IPv4) : (',' : Char) ∉ (ipToString ip).data := by
  intro h
  rcases ipToString_digit_or_dot ip ',' h with hd | hd
  · cases hd
  · cases hd

theorem ipToString_ne_auto (ip : IPv4) : ipToString ip ≠ "auto" := by
  intro h
  have hd : (ipToString ip).data = "auto".data := by rw [h]
  obtain ⟨c, t, hct⟩ := List.exists_cons_of_ne_nil (decStr_ne_nil ip.o1)
  have hdata : (ipToString ip).data = c :: (t ++ '.' ::
      intercalateChar '.' [decStr ip.o2, decStr ip.o3, decStr ip.o4]) := by
    show intercalateChar '.' [decStr ip.o1, decStr ip.o2, decStr ip.o3, decStr ip.o4] = _
    show decStr ip.o1 ++ '.' :: intercalateChar '.' [decStr ip.o2, decStr ip.o3, decStr ip.o4] = _
    rw [hct]
    rfl
  rw [hdata] at hd
  have hca : c = 'a' := by
    have := List.head_eq_of_cons_eq hd
    simpa using this
  have hcd : c.isDigit = true := decStr_digits ip.o1 c (hct ▸ List.mem_cons_self _ _)
  rw [hca] at hcd
  cases hcd

theorem epToString_data (e : UDPAddr) :
    (epToString e).data = (ipToString e.ip).data ++ ':' :: decStr e.port := by
  unfold epToString
  rw [String.data_append, String.data_append]
  simp

theorem resolveUDP4_epToString (e : UDPAddr) (h1 : e.ip.o1 < 256) (h2 : e.ip.o2 < 256)
    (h3 : e.ip.o3 < 256) (h4 : e.ip.o4 < 256) (hport : e.port < 65536) :
    resolveUDP4 (epToString e) = some e := by
  unfold resolveUDP4
  rw [epToString_data]
  rw [splitOnChar_append (ipToString_no_colon e.ip) _]
  rw [splitOnChar_no_sep (not_mem_decStr (by decide) e.port)]
  simp only
  have heta : (⟨(ipToString e.ip).data⟩ : String) = ipToString e.ip := rfl
  rw [heta, parseIP4_ipToString e.ip h1 h2 h3 h4, parseDec_decStr]
  simp [hport]

theorem epToString_no_comma (e : UDPAddr) : (',' : Char) ∉ (epToString e).data := by
  rw [epToString_data]
  intro h
  rcases List.mem_append.mp h with hm | hm
  · exact ipToString_no_comma e.ip hm
  · rcases List.mem_cons.mp hm with he | hm2
    · cases he
    · exact not_mem_decStr (by decide) e.port hm2

/-! ### C7: bogus introduction strings -/

/-- C7: an introduction string that does not split into exactly 4
comma-separated fields is rejected by `ParseIntroString` with the specific
parse error and no handshake value, and processing such an introduction
leaves the Swarm table unchanged. -/
theorem c7_bogus_intro (intro : String) (onOk : Swarm → PeerHandshake → Swarm) (s : Swarm)
    (h : (splitOnChar ',' intro.data).length ≠ 4) :
    ParseIntroString intro = .error ("Failed to parse introduction string: " ++ intro) ∧
    handleIntroModel onOk s intro = s := by
  have herr : ParseIntroString intro =
      .error ("Failed to parse introduction string: " ++ intro) := by
    unfold ParseIntroString
    rcases hs : (splitOnChar ',' intro.data) with _ | ⟨a, _ | ⟨b, _ | ⟨c, _ | ⟨d, _ | ⟨e, t⟩⟩⟩⟩⟩
    · simp [hs]
    · simp [hs]
    · simp [hs]
    · simp [hs]
    · exact absurd (by rw [hs]; rfl) h
    · simp [hs]
  refine ⟨herr, ?_⟩
  unfold handleIntroModel
  rw [herr]

/-- Witness for C7: the 3-field string `"a,b,c"` is rejected and the table
is untouched. -/
theorem c7_bogus_intro_witness :
    ParseIntroString "a,b,c" = .error ("Failed to parse introduction string: " ++ "a,b,c") ∧
    handleIntroModel (fun s _ => s) initSwarm "a,b,c" = initSwarm :=
  c7_bogus_intro "a,b,c" (fun s _ => s) initSwarm (by decide)

/-! ### C6: introduction round trip -/

theorem string_eta (s : String) : (⟨s.data⟩ : String) = s := rfl

/-- C6 (amended): for every handshake whose id contains no comma, whose
hardware address is 6 octets, whose IP is a valid IPv4 exactly when the
auto flag is unset (and absent when it is set), and whose endpoint is a
literal IPv4 host with a 16-bit port, parsing the comma-separated
serialization `id,mac,ip|auto,endpoint` yields the handshake back. -/
theorem c6_intro_roundtrip (hs : PeerHandshake)
    (hid : (',' : Char) ∉ hs.id.data)
    (hlen : hs.hardwareAddr.length = 6)
    (hhw : ∀ b ∈ hs.hardwareAddr, b < 256)
    (hip : (hs.autoIP = true ∧ hs.ip = none) ∨
           (hs.autoIP = false ∧ ∃ ip, hs.ip = some ip ∧
             ip.o1 < 256 ∧ ip.o2 < 256 ∧ ip.o3 < 256 ∧ ip.o4 < 256))
    (he1 : hs.endpoint.ip.o1 < 256) (he2 : hs.endpoint.ip.o2 < 256)
    (he3 : hs.endpoint.ip.o3 < 256) (he4 : hs.endpoint.ip.o4 < 256)
    (hport : hs.endpoint.port < 65536) :
    ParseIntroString (serializeHandshake hs) = .ok hs := by
  have hcomma : ((("," : String)).data) = [','] := rfl
  rcases hip with ⟨hauto, hipn⟩ | ⟨hauto, ip, hips, i1, i2, i3, i4⟩
  · -- auto branch
    have hser : (serializeHandshake hs).data =
        hs.id.data ++ ',' :: ((macToString hs.hardwareAddr).data ++
          ',' :: ("auto".data ++ ',' :: (epToString hs.endpoint).data)) := by
      unfold serializeHandshake
      rw [if_pos hauto]
      simp only [String.data_append, hcomma, List.append_assoc, List.cons_append,
        List.nil_append]
    have hsplit : splitOnChar ',' (serializeHandshake hs).data =
        [hs.id.data, (macToString hs.hardwareAddr).data, "auto".data,
         (epToString hs.endpoint).data] := by
      rw [hser]
      rw [splitOnChar_append hid]
      rw [splitOnChar_append (macToString_no_comma _)]
      rw [splitOnChar_append (by decide : (',' : Char) ∉ "auto".data)]
      rw [splitOnChar_no_sep (epToString_no_comma _)]
    unfold ParseIntroString
    rw [hsplit]
    simp only [List.map_cons, List.map_nil, string_eta]
    rw [parseMAC_macToString _ hlen hhw]
    simp only [if_pos rfl]
    rw [resolveUDP4_epToString _ he1 he2 he3 he4 hport]
    cases hs
    simp_all
  · -- literal IPv4 branch
    have hser : (serializeHandshake hs).data =
        hs.id.data ++ ',' :: ((macToString hs.hardwareAddr).data ++
          ',' :: ((ipToString ip).data ++ ',' :: (epToString hs.endpoint).data)) := by
      unfold serializeHandshake
      rw [if_neg (by rw [hauto]; exact Bool.false_ne_true)]
      rw [hips]
      simp only [String.data_append, hcomma, List.append_assoc, List.cons_append,
        List.nil_append]
    have hsplit : splitOnChar ',' (serializeHandshake hs).data =
        [hs.id.data, (macToString hs.hardwareAddr).data, (ipToString ip).data,
         (epToString hs.endpoint).data] := by
      rw [hser]
      rw [splitOnChar_append hid]
      rw [splitOnChar_append (macToString_no_comma _)]
      rw [splitOnChar_append (ipToString_no_comma _)]
      rw [splitOnChar_no_sep (epToString_no_comma _)]
    unfold ParseIntroString
    rw [hsplit]
    simp only [List.map_cons, List.map_nil, string_eta]
    simp only [parseMAC_macToString _ hlen hhw, if_neg (ipToString_ne_auto ip),
      parseIP4_ipToString ip i1 i2 i3 i4, resolveUDP4_epToString _ he1 he2 he3 he4 hport]
    cases hs
    simp_all

/-- Witness for C6 (amended): a concrete handshake with comma-free id,
valid MAC, literal IPv4 and endpoint round-trips. -/
theorem c6_intro_roundtrip_witness :
    ParseIntroString (serializeHandshake
      ⟨"abc", [6, 1, 2, 3, 4, 5], some ⟨10, 0, 0, 1⟩, ⟨⟨1, 2, 3, 4⟩, 80⟩, false⟩) =
      .ok ⟨"abc", [6, 1, 2, 3, 4, 5], some ⟨10, 0, 0, 1⟩, ⟨⟨1, 2, 3, 4⟩, 80⟩, false⟩ :=
  c6_intro_roundtrip
    ⟨"abc", [6, 1, 2, 3, 4, 5], some ⟨10, 0, 0, 1⟩, ⟨⟨1, 2, 3, 4⟩, 80⟩, false⟩
    (by decide) (by decide) (by decide)
    (Or.inr ⟨rfl, ⟨10, 0, 0, 1⟩, rfl, by decide, by decide, by decide, by decide⟩)
    (by decide) (by decide) (by decide) (by decide) (by decide)

set_option maxRecDepth 4000 in
/-- C6 counterexample: the claim as stated quantifies over every handshake
with valid IP/MAC/endpoint but does not constrain the id; a handshake whose
id contains a comma serializes into five comma-separated fields, and
parsing rejects it instead of returning the handshake. -/
theorem c6_counterexample :
    ¬ ∀ hs : PeerHandshake,
        hs.hardwareAddr.length = 6 → (∀ b ∈ hs.hardwareAddr, b < 256) →
        ((hs.autoIP = true ∧ hs.ip = none) ∨
          (hs.autoIP = false ∧ ∃ ip, hs.ip = some ip ∧
            ip.o1 < 256 ∧ ip.o2 < 256 ∧ ip.o3 < 256 ∧ ip.o4 < 256)) →
        hs.endpoint.ip.o1 < 256 → hs.endpoint.ip.o2 < 256 →
        hs.endpoint.ip.o3 < 256 → hs.endpoint.ip.o4 < 256 →
        hs.endpoint.port < 65536 →
        ParseIntroString (serializeHandshake hs) = .ok hs := by
  intro h
  have hbad := h ⟨"x,y", [6, 1, 2, 3, 4, 5], some ⟨10, 0, 0, 1⟩, ⟨⟨1, 2, 3, 4⟩, 80⟩, false⟩
    (by decide) (by decide)
    (Or.inr ⟨rfl, ⟨10, 0, 0, 1⟩, rfl, by decide, by decide, by decide, by decide⟩)
    (by decide) (by decide) (by decide) (by decide) (by decide)
  have hval : ParseIntroString (serializeHandshake
      ⟨"x,y", [6, 1, 2, 3, 4, 5], some ⟨10, 0, 0, 1⟩, ⟨⟨1, 2, 3, 4⟩, 80⟩, false⟩) =
      Except.error ("Failed to parse introduction string: " ++ serializeHandshake
        ⟨"x,y", [6, 1, 2, 3, 4, 5], some ⟨10, 0, 0, 1⟩, ⟨⟨1, 2, 3, 4⟩, 80⟩, false⟩) := rfl
  rw [hval] at hbad
  cases hbad

/-! ### C5: MAC validation in `New` -/

theorem getD_lt_256 {l : List Nat} (h : ∀ b ∈ l, b < 256) : ∀ i, l.getD i 0 < 256 := by
  intro i
  induction l generalizing i with
  | nil => simp [List.getD]
  | cons a t ih =>
      cases i with
      | zero => simpa using h a (List.mem_cons_self _ _)
      | succ j =>
          simp only [List.getD_cons_succ]
          exact ih (fun b hb => h b (List.mem_cons_of_mem _ hb)) j

/-- C5 (amended): an empty mac option makes `New` generate a hardware
address — first octet the literal `0x06` (whose locally-administered bit,
bit 1, is set; the `buf[0] |= 2` of the source is discarded by the format
string), rendered with the `"06:"` prefix — and construction succeeds; a
non-empty mac option that does not parse leaves the interface hardware
address nil, but construction still succeeds: `New` returns an instance
either way. -/
theorem c5_mac_validation (mac : String) (entropy : List Nat) :
    (mac = "" → (∀ b ∈ entropy, b < 256) →
      NewModel mac entropy true = some ⟨some
        [6, entropy.getD 1 0, entropy.getD 2 0, entropy.getD 3 0, entropy.getD 4 0,
         entropy.getD 5 0]⟩ ∧
      (GenerateMAC entropy).1.data.take 3 = ['0', '6', ':'] ∧
      Nat.testBit 6 1 = true) ∧
    (mac ≠ "" → parseMAC mac = none → NewModel mac entropy true = some ⟨none⟩) := by
  constructor
  · intro hmac hb
    have hbytes : ∀ i, entropy.getD i 0 < 256 := getD_lt_256 hb
    have hmacstr : (⟨'0' :: '6' :: ':' :: intercalateChar ':'
        ([entropy.getD 1 0, entropy.getD 2 0, entropy.getD 3 0, entropy.getD 4 0,
          entropy.getD 5 0].map hexPairChars)⟩ : String) =
        macToString [6, entropy.getD 1 0, entropy.getD 2 0, entropy.getD 3 0,
          entropy.getD 4 0, entropy.getD 5 0] := rfl
    have hparse : parseMAC (macToString [6, entropy.getD 1 0, entropy.getD 2 0,
        entropy.getD 3 0, entropy.getD 4 0, entropy.getD 5 0]) =
        some [6, entropy.getD 1 0, entropy.getD 2 0, entropy.getD 3 0, entropy.getD 4 0,
          entropy.getD 5 0] := by
      apply parseMAC_macToString _ (by simp)
      intro b hb'
      simp only [List.mem_cons, List.not_mem_nil, or_false] at hb'
      rcases hb' with rfl | rfl | rfl | rfl | rfl | rfl
      · decide
      · exact hbytes 1
      · exact hbytes 2
      · exact hbytes 3
      · exact hbytes 4
      · exact hbytes 5
    have hgen : GenerateMAC entropy =
        (macToString [6, entropy.getD 1 0, entropy.getD 2 0, entropy.getD 3 0,
          entropy.getD 4 0, entropy.getD 5 0],
         some [6, entropy.getD 1 0, entropy.getD 2 0, entropy.getD 3 0, entropy.getD 4 0,
          entropy.getD 5 0]) := by
      simp only [GenerateMAC]
      rw [hmacstr, hparse]
    refine ⟨?_, ?_, by decide⟩
    · subst hmac
      simp [NewModel, validateMac, hgen]
    · rw [hgen]
      have hdata : (macToString [6, entropy.getD 1 0, entropy.getD 2 0, entropy.getD 3 0,
          entropy.getD 4 0, entropy.getD 5 0]).data =
          hexPairChars 6 ++ ':' :: intercalateChar ':'
            ([entropy.getD 1 0, entropy.getD 2 0, entropy.getD 3 0, entropy.getD 4 0,
              entropy.getD 5 0].map hexPairChars) := rfl
      rw [hdata]
      rfl
  · intro hne hparse
    simp [NewModel, validateMac, hne, hparse]

/-- Witness for C5 (amended): entropy `[9,1,2,3,4,5]` yields the generated
address `06:01:02:03:04:05` with a successful construction, and the
unparseable mac `"zz"` still yields an instance (with nil hardware
address). -/
theorem c5_mac_validation_witness :
    NewModel "" [9, 1, 2, 3, 4, 5] true = some ⟨some [6, 1, 2, 3, 4, 5]⟩ ∧
    NewModel "zz" [] true = some ⟨none⟩ :=
  ⟨((c5_mac_validation "" [9, 1, 2, 3, 4, 5]).1 rfl (by decide)).1,
   (c5_mac_validation "zz" []).2 (by decide) (by decide)⟩

/-- C5 counterexample: the claim as stated says an invalid (non-empty,
unparseable) mac makes construction fail; but `New` installs the nil
result of `validateMac` and returns an instance anyway. -/
theorem c5_counterexample :
    ¬ ∀ (mac : String) (entropy : List Nat), mac ≠ "" → parseMAC mac = none →
        NewModel mac entropy true = none := by
  intro h
  have := h "invalid" [] (by decide) (by decide)
  exact absurd this (by decide)
